import Mathlib

/-!
Verification of the duty-manager scheduling core.

Shallow embedding of the schedule-generation engine:
  * `generateMeetingDates`, `isSameWeek`, `isPersonAvailable`,
    `getDaysSinceLastAssignment` (dateUtils),
  * `generateSchedule`, `assignRoleToMeeting`, `scorePerson`,
    `calculateAverageAssignments`, `calculateAverageTotalAssignments`
    (scheduler),
  * the data shapes from the models module.

Dates are modelled at day resolution as `Nat` (days since the JS epoch
1970-01-01, which was a Thursday); the source normalizes all compared
dates to local midnight with `setHours(0,0,0,0)` and the spec states
comparisons are date-only.  Scores are modelled as `ℚ` (the source uses
JS numbers only through `+ - * /` on small values).  The ambient
`Math.random()` source is modelled as a function `rng : Nat → Nat`
consumed at an incrementing index; `Math.floor(Math.random()*n)` is an
arbitrary value in `[0, n)`, modelled as `rng i % n`.  The `uuidv4` ids
given to meetings are modelled as the meeting's index in the generated
list (all that is used of them is freshness/uniqueness as map keys).
-/

namespace DutyManager

abbrev RoleId := String

abbrev PersonId := String

/-- `Date.prototype.getDay()`: 0 = Sunday … 6 = Saturday.
The epoch day 0 was a Thursday (= 4). -/
def jsGetDay (d : Nat) : Nat := (d + 4) % 7

/-! ### Association lists

JS object maps (`{ roleId: … }`) and `Map` objects are modelled as
association lists in insertion order: assignment to an existing key
overwrites in place, a new key is appended; `Map.delete` removes the
entry. -/

/-- Lookup (`obj[k]`, yielding `undefined` as `none`). -/
def getA {κ β : Type} [DecidableEq κ] : List (κ × β) → κ → Option β
  | [], _ => none
  | (k', v) :: rest, k => if k' = k then some v else getA rest k

/-- Update (`obj[k] = v` / `Map.set`): overwrite in place or append. -/
def setA {κ β : Type} [DecidableEq κ] : List (κ × β) → κ → β → List (κ × β)
  | [], k, v => [(k, v)]
  | (k', v') :: rest, k, v =>
      if k' = k then (k, v) :: rest else (k', v') :: setA rest k v

/-- `Map.delete k`. -/
def removeA {κ β : Type} [DecidableEq κ] : List (κ × β) → κ → List (κ × β)
  | [], _ => []
  | (k', v') :: rest, k =>
      if k' = k then rest else (k', v') :: removeA rest k

/-- `Object.values`. -/
def valuesA {κ β : Type} (m : List (κ × β)) : List β := m.map (·.2)

/-! ### Stable sorting

JS `Array.prototype.sort` is stable.  Stable insertion sort with a
boolean "goes before or equal" relation: `le x y = true` means `x` may
be placed before `y`. -/

def insertSorted {α : Type} (le : α → α → Bool) (x : α) : List α → List α
  | [] => [x]
  | y :: ys => if le x y then x :: y :: ys else y :: insertSorted le x ys

def sortBy {α : Type} (le : α → α → Bool) (l : List α) : List α :=
  l.foldr (insertSorted le) []

/-! ### Data model (models module) -/

/-- An unavailability block (`createAvailability`), both endpoints inclusive. -/
structure AvailBlock where
  startDate : Nat
  endDate : Nat
deriving Repr, DecidableEq

/-- A person record (`createPerson`): identity, qualified role ids,
unavailability blocks, per-role last-assigned dates and per-role
assignment counts (both JS object maps). -/
structure Person where
  id : PersonId
  roles : List RoleId
  availability : List AvailBlock
  lastAssigned : List (RoleId × Nat)
  assignmentCount : List (RoleId × Nat)
deriving Repr, DecidableEq

/-- A role record (`createRole`). -/
structure Role where
  id : RoleId
  name : String
  allowGrouping : Bool
  peopleIds : List PersonId
deriving Repr, DecidableEq

/-- A duty (`createDuty`). -/
structure Duty where
  personId : Option PersonId
  manuallyAssigned : Bool
  hasConflict : Bool
  needsReview : Bool
deriving Repr, DecidableEq

/-- `createDuty` with its default fields. -/
def createDuty (personId : Option PersonId) (manuallyAssigned hasConflict needsReview : Bool) :
    Duty :=
  { personId := personId, manuallyAssigned := manuallyAssigned,
    hasConflict := hasConflict, needsReview := needsReview }

/-- A meeting (`createMeeting`); `id` models the `uuidv4` as the
meeting's index in the generated list (only freshness is used). -/
structure Meeting where
  id : Nat
  date : Nat
  day : String
  type : String
  comment : Option String
  duties : List (RoleId × Duty)
deriving Repr, DecidableEq

/-- A conflict record pushed by `assignRoleToMeeting`; the `details`
breakdown fields are `none` for the zero-qualified branch (it pushes
`details: {}`). -/
structure Conflict where
  type : String
  meetingId : Nat
  roleId : RoleId
  message : String
  unavailable : Option Nat
  doubleBooked : Option Nat
  total : Option Nat
deriving Repr, DecidableEq

/-- The schedule result (`createSchedule` plus the fields `generateSchedule`
fills in; the unused `id`/`generatedDate`/`statistics` fields are omitted). -/
structure Schedule where
  startDate : Nat
  endDate : Nat
  meetings : List Meeting
  conflicts : List Conflict
  cancelledDates : List Nat
deriving Repr, DecidableEq

/-- An omitted-date entry (`createOmittedDate`; the reason is never read). -/
structure OmittedDate where
  date : Nat
deriving Repr, DecidableEq

/-- A special-meeting entry (`createSpecialMeeting`, possibly with
pre-seeded duties attached by the customisation screens). -/
structure SpecialMeeting where
  id : Nat
  date : Nat
  comment : Option String
  duties : List (RoleId × Duty)
deriving Repr, DecidableEq

/-- `settings.meetingDays`. -/
structure MeetingDays where
  midweek : String
  weekend : String
deriving Repr, DecidableEq

/-- The settings object; `meetingDays` is optional to model the `?.` access. -/
structure Settings where
  meetingDays : Option MeetingDays
deriving Repr, DecidableEq

/-! ### dateUtils -/

/-- `x || default` on an optionally-absent string (empty string is falsy). -/
def orDefaultStr (s : Option String) (d : String) : String :=
  match s with
  | some v => if v = "" then d else v
  | none => d

/-- `settings?.meetingDays?.midweek || 'Thursday'`. -/
def midweekNameOf (settings : Option Settings) : String :=
  orDefaultStr ((settings.bind (·.meetingDays)).map (·.midweek)) "Thursday"

/-- `settings?.meetingDays?.weekend || 'Sunday'`. -/
def weekendNameOf (settings : Option Settings) : String :=
  orDefaultStr ((settings.bind (·.meetingDays)).map (·.weekend)) "Sunday"

/-- The `dayMap` lookup table; unknown names give `undefined` (`none`). -/
def dayMap (name : String) : Option Nat :=
  if name = "Sunday" then some 0
  else if name = "Monday" then some 1
  else if name = "Tuesday" then some 2
  else if name = "Wednesday" then some 3
  else if name = "Thursday" then some 4
  else if name = "Friday" then some 5
  else if name = "Saturday" then some 6
  else none

/-- The `dayNames` array indexed by `getDay()`. -/
def dayNameOf (n : Nat) : String :=
  (["Sunday", "Monday", "Tuesday", "Wednesday", "Thursday", "Friday",
    "Saturday"].get? n).getD ""

/-- The day-by-day walk to the first day with `getDay() = dayNum` on or
after `d` (the source's `while (currentDate.getDay() !== midweekDayNum)`
loop; it advances at most 6 days when `dayNum < 7`, so fuel 7 suffices). -/
def advanceToDay (dayNum : Nat) : Nat → Nat → Nat
  | 0, d => d
  | fuel + 1, d => if jsGetDay d = dayNum then d else advanceToDay dayNum fuel (d + 1)

/-- One occurrence descriptor as produced by `generateMeetingDates`
(regular descriptors carry no `duties`/`specialMeetingId`, modelled as
`[]`/`none`). -/
structure MeetingDate where
  date : Nat
  day : String
  type : String
  comment : Option String
  isSpecial : Bool
  specialMeetingId : Option Nat
  duties : List (RoleId × Duty)
deriving Repr, DecidableEq

/-- The main day-by-day walk of `generateMeetingDates` (`while
(currentDate < endDate)`, one day per step, so `endDate - c0` steps of
fuel); returns the emitted occurrences together with the remaining
special-meetings map (consumed entries deleted). -/
def walkDays (midweekDayNum : Nat) (weekendDayNum : Option Nat)
    (midweekDay weekendDay : String) (cancelledSet omittedSet : List Nat) :
    Nat → Nat → List (Nat × SpecialMeeting) →
    List MeetingDate × List (Nat × SpecialMeeting)
  | 0, _, smap => ([], smap)
  | fuel + 1, cur, smap =>
      let dayOfWeek := jsGetDay cur
      if dayOfWeek = midweekDayNum ∨ some dayOfWeek = weekendDayNum then
        if cur ∈ cancelledSet ∨ cur ∈ omittedSet then
          walkDays midweekDayNum weekendDayNum midweekDay weekendDay
            cancelledSet omittedSet fuel (cur + 1) smap
        else
          match getA smap cur with
          | some sm =>
              let md : MeetingDate :=
                { date := cur,
                  day := if dayOfWeek = midweekDayNum then midweekDay else weekendDay,
                  type := "special", comment := sm.comment, isSpecial := true,
                  specialMeetingId := some sm.id, duties := sm.duties }
              let rest := walkDays midweekDayNum weekendDayNum midweekDay weekendDay
                cancelledSet omittedSet fuel (cur + 1) (removeA smap cur)
              (md :: rest.1, rest.2)
          | none =>
              let md : MeetingDate :=
                { date := cur,
                  day := if dayOfWeek = midweekDayNum then midweekDay else weekendDay,
                  type := "regular", comment := none, isSpecial := false,
                  specialMeetingId := none, duties := [] }
              let rest := walkDays midweekDayNum weekendDayNum midweekDay weekendDay
                cancelledSet omittedSet fuel (cur + 1) smap
              (md :: rest.1, rest.2)
      else
        walkDays midweekDayNum weekendDayNum midweekDay weekendDay
          cancelledSet omittedSet fuel (cur + 1) smap

/-- Occurrence ordering used by the final `meetings.sort((a, b) => a.date - b.date)`. -/
def mdDateLe (a b : MeetingDate) : Bool := a.date ≤ b.date

/-- `generateMeetingDates`.  Returns `none` when the configured midweek
day name is not a weekday name: the source's first day-walk loop then
never terminates.  (An unknown weekend name merely never matches, which
is modelled by the `Option Nat` comparison in the walk.) -/
def generateMeetingDates (startDate : Nat) (weeks : Nat) (cancelledDates : List Nat)
    (settings : Option Settings) (omittedDates : List OmittedDate)
    (specialMeetings : List SpecialMeeting) : Option (List MeetingDate) :=
  let midweekDay := midweekNameOf settings
  let weekendDay := weekendNameOf settings
  match dayMap midweekDay with
  | none => none
  | some midweekDayNum =>
      let weekendDayNum := dayMap weekendDay
      let omittedSet := omittedDates.map (·.date)
      let specialMeetingsMap :=
        specialMeetings.foldl (fun m sm => setA m sm.date sm) []
      let cancelledSet := cancelledDates
      let c0 := advanceToDay midweekDayNum 7 startDate
      let endDate := c0 + weeks * 7
      let walked := walkDays midweekDayNum weekendDayNum midweekDay weekendDay
        cancelledSet omittedSet (weeks * 7) c0 specialMeetingsMap
      let leftovers := walked.2.filterMap (fun dtsm =>
        if startDate ≤ dtsm.1 ∧ dtsm.1 < endDate then
          some { date := dtsm.1, day := dayNameOf (jsGetDay dtsm.1), type := "special",
                 comment := dtsm.2.comment, isSpecial := true,
                 specialMeetingId := some dtsm.2.id, duties := dtsm.2.duties }
        else (none : Option MeetingDate))
      some (sortBy mdDateLe (walked.1 ++ leftovers))

/-- `isSameWeek`: hard-coded to "the later date is exactly 3 days after
the earlier one, the earlier is a Thursday and the later a Sunday". -/
def isSameWeek (date1 date2 : Nat) : Bool :=
  if date2 ≤ date1 then false
  else
    let daysDiff := date2 - date1
    daysDiff = 3 && jsGetDay date1 = 4 && jsGetDay date2 = 0

/-- `isPersonAvailable`: no unavailability block contains the date
(inclusive endpoints, day resolution). -/
def isPersonAvailable (person : Person) (date : Nat) : Bool :=
  if person.availability.isEmpty then true
  else person.availability.all (fun b => !(b.startDate ≤ date && date ≤ b.endDate))

/-- `getDaysSinceLastAssignment`; `none` models the source's `Infinity`. -/
def getDaysSinceLastAssignment (person : Person) (roleId : RoleId) (currentDate : Nat) :
    Option Int :=
  match getA person.lastAssigned roleId with
  | none => none
  | some lastDate => some ((currentDate : Int) - (lastDate : Int))

/-- The single occurrence generated in the C4 witness scenario. -/
def c4WitnessMd : MeetingDate :=
  { date := 0, day := "Thursday", type := "regular", comment := none,
    isSpecial := false, specialMeetingId := none, duties := [] }

/-! ### The scoring function (`scorePerson` and its helpers)

The source accumulates `score` additively from a base of 100; the
embedding names each `Factor` block as a separate term and sums them. -/

/-- `scheduleAssignments`: `meetingId -> { roleId -> personId }` (the
engine stores `duty.personId` there, `null` included). -/
abbrev SchedAssign := List (Nat × List (RoleId × Option PersonId))

/-- `groupedRolePreferences`: `meetingId -> { roleId -> personId }`. -/
abbrev GroupPrefs := List (Nat × List (RoleId × PersonId))

/-- `groupedRolePreferences[meetingId]?.[roleId]`. -/
def prefLookup (prefs : GroupPrefs) (meetingId : Nat) (roleId : RoleId) :
    Option PersonId :=
  (getA prefs meetingId).bind (fun m => getA m roleId)

/-- `calculateAverageAssignments`. -/
def calculateAverageAssignments (role : Role) (peopleState : List Person) : ℚ :=
  let eligiblePeople := peopleState.filter (fun p => role.peopleIds.contains p.id)
  if eligiblePeople.length = 0 then 0
  else
    (eligiblePeople.map
      (fun p => (((getA p.assignmentCount role.id).getD 0 : Nat) : ℚ))).sum /
      (eligiblePeople.length : ℚ)

/-- `Object.values(person.assignmentCount).reduce((sum, c) => sum + c, 0)`. -/
def totalAssignmentsOf (p : Person) : Nat := (valuesA p.assignmentCount).sum

/-- `calculateAverageTotalAssignments`. -/
def calculateAverageTotalAssignments (peopleState : List Person) : ℚ :=
  if peopleState.length = 0 then 0
  else (peopleState.map (fun p => ((totalAssignmentsOf p : Nat) : ℚ))).sum /
    (peopleState.length : ℚ)

/-- Factor 1: grouping continuity bonus (`+1000`). -/
def groupingContinuityBonus (person : Person) (role : Role) (meeting : Meeting)
    (meetingIndex : Nat) (meetings : List Meeting) (prefs : GroupPrefs) : ℚ :=
  if role.allowGrouping ∧ meetingIndex > 0 then
    match meetings.get? (meetingIndex - 1) with
    | some previousMeeting =>
        if isSameWeek previousMeeting.date meeting.date then
          if prefLookup prefs previousMeeting.id role.id = some person.id then 1000
          else 0
        else 0
    | none => 0
  else 0

/-- Factor 1b: back-to-back-week penalty (`-500`, returned here as the
positive amount subtracted). -/
def groupingAntiRepeatPenalty (person : Person) (role : Role) (meeting : Meeting)
    (meetingIndex : Nat) (meetings : List Meeting) (prefs : GroupPrefs) : ℚ :=
  if role.allowGrouping ∧ meetingIndex ≥ 2 then
    match meetings.get? (meetingIndex - 2) with
    | some twoMeetingsAgo =>
        if ¬ isSameWeek twoMeetingsAgo.date meeting.date ∧
            prefLookup prefs twoMeetingsAgo.id role.id = some person.id then 500
        else 0
    | none => 0
  else 0

/-- Factor 2: `countDiff * 30` (subtracted). -/
def roleLoadPenalty (person : Person) (role : Role) (peopleState : List Person) : ℚ :=
  (((getA person.assignmentCount role.id).getD 0 : Nat) -
    calculateAverageAssignments role peopleState) * 30

/-- Factor 3: `totalDiff * 60` (subtracted). -/
def totalLoadPenalty (person : Person) (peopleState : List Person) : ℚ :=
  ((totalAssignmentsOf person : Nat) -
    calculateAverageTotalAssignments peopleState) * 60

/-- Factor 3b: role-diversity bonus, including the `+30` first-ever branch. -/
def roleDiversityBonus (person : Person) (role : Role) : ℚ :=
  let numQualifiedRoles := person.roles.length
  let totalAssignments := totalAssignmentsOf person
  let assignmentCount := (getA person.assignmentCount role.id).getD 0
  if numQualifiedRoles ≥ 2 ∧ totalAssignments ≥ 2 then
    let expectedPerRole : ℚ := (totalAssignments : ℚ) / (numQualifiedRoles : ℚ)
    let roleDeficit : ℚ := expectedPerRole - (assignmentCount : ℚ)
    (if roleDeficit > 0 then roleDeficit * 100 else 0) +
      (if assignmentCount = 0 ∧ totalAssignments > 3 then 200 else 0)
  else if assignmentCount = 0 ∧ totalAssignments = 0 then 30
  else 0

/-- Factor 4: recency (`+30` if never assigned, else a decaying penalty). -/
def recencyTerm (person : Person) (role : Role) (meeting : Meeting) : ℚ :=
  match getDaysSinceLastAssignment person role.id meeting.date with
  | some daysSince => -(max 0 (20 - ((daysSince : ℚ) / 7) * 3))
  | none => 30

/-- `scorePerson`: base 100 plus the factor terms above.
(`scheduleAssignments` is received but never read by the source.) -/
def scorePerson (person : Person) (role : Role) (meeting : Meeting)
    (meetingIndex : Nat) (meetings : List Meeting)
    (scheduleAssignments : SchedAssign) (prefs : GroupPrefs)
    (peopleState : List Person) : ℚ :=
  let _ := scheduleAssignments
  100 + groupingContinuityBonus person role meeting meetingIndex meetings prefs
    - groupingAntiRepeatPenalty person role meeting meetingIndex meetings prefs
    - roleLoadPenalty person role peopleState
    - totalLoadPenalty person peopleState
    + roleDiversityBonus person role
    + recencyTerm person role meeting

/-! ### C3: the same-week test and the continuity bonus -/

/-- Modelled from the spec: "the immediately preceding occurrence in the
sequence falls in the same calendar week".  Calendar weeks run
Monday–Sunday (the spec's fixed grouping window treats a Thursday and the
following Sunday as one week, so the week cannot start on Sunday); the
epoch day 0 is a Thursday, so its week began 3 days earlier. -/
def sameCalendarWeek (d1 d2 : Nat) : Bool := (d1 + 3) / 7 = (d2 + 3) / 7

/-- Concrete candidate used in the C3 counterexample. -/
def c3Person : Person :=
  { id := "p1", roles := ["r1"], availability := [], lastAssigned := [],
    assignmentCount := [] }

/-- Grouping-enabled role for the C3 counterexample. -/
def c3Role : Role :=
  { id := "r1", name := "Role One", allowGrouping := true, peopleIds := ["p1"] }

/-- Wednesday occurrence (epoch day 6). -/
def c3MeetingWed : Meeting :=
  { id := 0, date := 6, day := "Wednesday", type := "regular", comment := none,
    duties := [] }

/-- Saturday occurrence of the same calendar week (epoch day 9). -/
def c3MeetingSat : Meeting :=
  { id := 1, date := 9, day := "Saturday", type := "regular", comment := none,
    duties := [] }

/-! ### The assignment engine (`assignRoleToMeeting`) -/

/-- A person together with their score. -/
structure ScoredPerson where
  person : Person
  score : ℚ
deriving Repr, DecidableEq

/-- `eligiblePeople = peopleState.filter(p => role.peopleIds.includes(p.id))`. -/
def eligibleFor (role : Role) (peopleState : List Person) : List Person :=
  peopleState.filter (fun person => decide (person.id ∈ role.peopleIds))

/-- `scoredPeople`. -/
def scoredFor (role : Role) (meeting : Meeting) (meetingIndex : Nat)
    (meetings : List Meeting) (scheduleAssignments : SchedAssign)
    (prefs : GroupPrefs) (peopleState : List Person) : List ScoredPerson :=
  (eligibleFor role peopleState).map (fun person =>
    { person := person,
      score := scorePerson person role meeting meetingIndex meetings
        scheduleAssignments prefs peopleState })

/-- `validPeople`: the scored candidates passing both hard constraints
(available on the date, not already assigned in this meeting according to
`scheduleAssignments[meeting.id]`). -/
def validCandidates (role : Role) (meeting : Meeting) (meetingIndex : Nat)
    (meetings : List Meeting) (scheduleAssignments : SchedAssign)
    (prefs : GroupPrefs) (peopleState : List Person) : List ScoredPerson :=
  (scoredFor role meeting meetingIndex meetings scheduleAssignments prefs
      peopleState).filter (fun sp =>
    isPersonAvailable sp.person meeting.date &&
      !(decide (some sp.person.id ∈
        valuesA ((getA scheduleAssignments meeting.id).getD []))))

/-- The descending stable order used by `validPeople.sort((a,b) => b.score - a.score)`. -/
def scoreDescLe (a b : ScoredPerson) : Bool := b.score ≤ a.score

/-- Placeholder used with `headD`/`getD` at indices the source knows are
in range. -/
def dummyScored : ScoredPerson :=
  { person := { id := "", roles := [], availability := [], lastAssigned := [],
                assignmentCount := [] },
    score := 0 }

/-- What one `assignRoleToMeeting` call produces: the duty it returns,
the conflicts it pushes (zero or one), and whether it consumed one
`Math.random()` value. -/
structure AssignOut where
  duty : Duty
  newConflicts : List Conflict
  usedRng : Bool
deriving Repr, DecidableEq

/-- `assignRoleToMeeting`.  The `Math.floor(Math.random() * n)` draw is
modelled as `rng rngIdx % n` (an arbitrary index in `[0, n)`); `n` is
positive in that branch since the top scorer is always within its own
5-point tolerance.  `meeting.date.toDateString()` in the second conflict
message is rendered as the day number. -/
def assignRoleToMeeting (rng : Nat → Nat) (rngIdx : Nat) (meeting : Meeting)
    (role : Role) (peopleState : List Person)
    (scheduleAssignments : SchedAssign) (meetings : List Meeting)
    (meetingIndex : Nat) (prefs : GroupPrefs) : AssignOut :=
  let eligiblePeople := eligibleFor role peopleState
  if eligiblePeople.length = 0 then
    { duty := createDuty none false true false,
      newConflicts := [{ type := "unfilled", meetingId := meeting.id,
                         roleId := role.id,
                         message := "No people qualified for role " ++ role.name,
                         unavailable := none, doubleBooked := none,
                         total := none }],
      usedRng := false }
  else
    let validPeople := validCandidates role meeting meetingIndex meetings
      scheduleAssignments prefs peopleState
    if validPeople.length = 0 then
      let unavailable := eligiblePeople.filter
        (fun p => !(isPersonAvailable p meeting.date))
      let doubleBooked := eligiblePeople.filter (fun p =>
        decide (some p.id ∈ valuesA ((getA scheduleAssignments meeting.id).getD [])))
      { duty := createDuty none false true false,
        newConflicts := [{ type := "unfilled", meetingId := meeting.id,
                           roleId := role.id,
                           message := "No valid person for " ++ role.name ++
                             " on day " ++ toString meeting.date,
                           unavailable := some unavailable.length,
                           doubleBooked := some doubleBooked.length,
                           total := some eligiblePeople.length }],
        usedRng := false }
    else
      let sorted := sortBy scoreDescLe validPeople
      let topScore := (sorted.headD dummyScored).score
      let similarScorePeople := sorted.filter (fun sp => |sp.score - topScore| < 5)
      let selectedIndex := rng rngIdx % similarScorePeople.length
      let bestPerson := (similarScorePeople.getD selectedIndex dummyScored).person
      { duty := createDuty (some bestPerson.id) false false false,
        newConflicts := [], usedRng := true }

/-! ### The orchestrator (`generateSchedule`) -/

/-- `peopleState.find(p => p.id === pid)` followed by in-place mutation of
the found record: update the first person with the given id. -/
def updateFirst (pid : PersonId) (f : Person → Person) : List Person → List Person
  | [] => []
  | p :: ps => if p.id = pid then f p :: ps else p :: updateFirst pid f ps

/-- The lookback mutation of one found person record: keep the later
`lastAssigned` date (`if (!person.lastAssigned[roleId] || … < meetingDate)`)
and increment the per-role count. -/
def lookbackPersonUpd (meetingDate : Nat) (rid : RoleId) (person : Person) : Person :=
  { person with
    lastAssigned :=
      match getA person.lastAssigned rid with
      | none => setA person.lastAssigned rid meetingDate
      | some old =>
          if old < meetingDate then setA person.lastAssigned rid meetingDate
          else person.lastAssigned,
    assignmentCount := setA person.assignmentCount rid
      ((getA person.assignmentCount rid).getD 0 + 1) }

/-- One duty entry of one lookback meeting applied to the people state
(lines "Update peopleState with assignments from lookback period"). -/
def lookbackApplyDuty (meetingDate : Nat) (ps : List Person)
    (rd : RoleId × Duty) : List Person :=
  match rd.2.personId with
  | none => ps
  | some pid => updateFirst pid (lookbackPersonUpd meetingDate rd.1) ps

/-- All duty entries of one lookback meeting (`Object.entries(meeting.duties)`
in insertion order). -/
def lookbackApplyMeeting (ps : List Person) (meeting : Meeting) : List Person :=
  meeting.duties.foldl (lookbackApplyDuty meeting.date) ps

/-- `existingMeetings.slice(-Math.min(8, existingMeetings.length))`: the
bounded trailing lookback window. -/
def lookbackWindow (existingMeetings : List Meeting) : List Meeting :=
  let lookbackCount := min 8 existingMeetings.length
  existingMeetings.drop (existingMeetings.length - lookbackCount)

/-- The LOOKBACK PHASE of `generateSchedule`: reset every person's
`assignmentCount` to `{}`, then replay the last `min 8 n` meetings of the
existing schedule. -/
def lookbackPhase (peopleState : List Person) (existingMeetings : List Meeting) :
    List Person :=
  let lookbackMeetings := lookbackWindow existingMeetings
  let ps := peopleState.map (fun p => { p with assignmentCount := [] })
  lookbackMeetings.foldl lookbackApplyMeeting ps

/-- The mutable state threaded through the per-meeting/per-role loops. -/
structure GenState where
  peopleState : List Person
  schedAssign : SchedAssign
  groupPrefs : GroupPrefs
  conflicts : List Conflict
  rngIdx : Nat
deriving Repr, DecidableEq

/-- The constrained-first role order
(`[...roles].sort((a, b) => a.peopleIds.length - b.peopleIds.length)`). -/
def roleLenLe (a b : Role) : Bool := a.peopleIds.length ≤ b.peopleIds.length

/-- The body of the inner `for (const role of sortedRoles)` loop: assign
one role in one meeting and perform all the state updates of the source
(`meeting.duties[role.id] = assignment`, `scheduleAssignments`, the
person's `lastAssigned`/`assignmentCount`, and the grouped-role
preference record for midweek days). -/
def processRole (rng : Nat → Nat) (midweekDay : String) (meetings0 : List Meeting)
    (meetingIndex : Nat) (acc : Meeting × GenState) (role : Role) :
    Meeting × GenState :=
  let meeting := acc.1
  let st := acc.2
  let out := assignRoleToMeeting rng st.rngIdx meeting role st.peopleState
    st.schedAssign meetings0 meetingIndex st.groupPrefs
  let duty := out.duty
  let meeting' := { meeting with duties := setA meeting.duties role.id duty }
  let amap := (getA st.schedAssign meeting.id).getD []
  let schedAssign' := setA st.schedAssign meeting.id (setA amap role.id duty.personId)
  let peopleState' :=
    match duty.personId with
    | some pid =>
        updateFirst pid (fun person =>
          { person with
            lastAssigned := setA person.lastAssigned role.id meeting.date,
            assignmentCount := setA person.assignmentCount role.id
              ((getA person.assignmentCount role.id).getD 0 + 1) }) st.peopleState
    | none => st.peopleState
  let groupPrefs' :=
    match duty.personId with
    | some pid =>
        if role.allowGrouping ∧ meeting.day = midweekDay then
          setA st.groupPrefs meeting.id
            (setA ((getA st.groupPrefs meeting.id).getD []) role.id pid)
        else st.groupPrefs
    | none => st.groupPrefs
  (meeting',
   { peopleState := peopleState', schedAssign := schedAssign',
     groupPrefs := groupPrefs', conflicts := st.conflicts ++ out.newConflicts,
     rngIdx := st.rngIdx + (if out.usedRng then 1 else 0) })

/-- One iteration of the outer `for (let i = 0; …)` loop:
`scheduleAssignments[meeting.id] = {}`, sort the roles most-constrained
first, then assign each role. -/
def processMeeting (rng : Nat → Nat) (roles : List Role) (midweekDay : String)
    (meetings0 : List Meeting) (meetingIndex : Nat) (meeting : Meeting)
    (st : GenState) : Meeting × GenState :=
  let st0 := { st with schedAssign := setA st.schedAssign meeting.id [] }
  let sortedRoles := sortBy roleLenLe roles
  sortedRoles.foldl (processRole rng midweekDay meetings0 meetingIndex) (meeting, st0)

/-- The outer loop over all meetings, carried at index `i`. -/
def processMeetings (rng : Nat → Nat) (roles : List Role) (midweekDay : String)
    (meetings0 : List Meeting) : Nat → List Meeting → GenState →
    List Meeting × GenState
  | _, [], st => ([], st)
  | i, m :: rest, st =>
      let r1 := processMeeting rng roles midweekDay meetings0 i m st
      let r2 := processMeetings rng roles midweekDay meetings0 (i + 1) rest r1.2
      (r1.1 :: r2.1, r2.2)

/-- The meeting objects `generateSchedule` builds from the occurrence
descriptors (`createMeeting` per descriptor, then the merge of any
pre-seeded special-meeting duties; an empty duty map merges to the same
empty map).  The `uuidv4` is the index. -/
def buildMeetings (meetingDates : List MeetingDate) : List Meeting :=
  meetingDates.enum.map (fun im =>
    { id := im.1, date := im.2.date, day := im.2.day, type := im.2.type,
      comment := im.2.comment, duties := im.2.duties })

/-- The working people state entering the assignment loop: the working
copies of the person records (`people.map(p => ({...p, lastAssigned:
{...}, …}))`) are value-level identities in this pure model (the aliasing
discipline of the copy is verified separately on the heap model below),
run through the lookback phase when a non-empty existing schedule is
supplied. -/
def initialPeopleState (people : List Person)
    (existingSchedule : Option Schedule) : List Person :=
  match existingSchedule with
  | some ex =>
      if ex.meetings.length > 0 then lookbackPhase people ex.meetings
      else people
  | none => people

/-- `generateSchedule`.  `none` models the non-terminating call (invalid
midweek day name, see `generateMeetingDates`). -/
def generateSchedule (rng : Nat → Nat) (startDate : Nat) (weeks : Nat)
    (people : List Person) (roles : List Role) (cancelledDates : List Nat)
    (existingSchedule : Option Schedule) (settings : Option Settings)
    (omittedDates : List OmittedDate) (specialMeetings : List SpecialMeeting) :
    Option Schedule :=
  match generateMeetingDates startDate weeks cancelledDates settings omittedDates
    specialMeetings with
  | none => none
  | some meetingDates =>
      let midweekDay := midweekNameOf settings
      let meetings := buildMeetings meetingDates
      let peopleState := initialPeopleState people existingSchedule
      let st0 : GenState :=
        { peopleState := peopleState, schedAssign := [], groupPrefs := [],
          conflicts := [], rngIdx := 0 }
      let res := processMeetings rng roles midweekDay meetings 0 meetings st0
      some { startDate := ((res.1.head?).map (·.date)).getD startDate,
             endDate := ((res.1.getLast?).map (·.date)).getD startDate,
             meetings := res.1, conflicts := res.2.conflicts,
             cancelledDates := cancelledDates }

/-- Concrete person for the C8 witness. -/
def c8Person : Person :=
  { id := "p1", roles := ["r1"], availability := [], lastAssigned := [],
    assignmentCount := [] }

/-- Concrete role for the C8 witness. -/
def c8Role : Role :=
  { id := "r1", name := "Role One", allowGrouping := false, peopleIds := ["p1"] }

/-- Concrete meeting for the C8 witness. -/
def c8Meeting : Meeting :=
  { id := 0, date := 0, day := "Thursday", type := "regular", comment := none,
    duties := [] }

/-! ### C5 / C6: the lookback phase

The effect of the lookback fold on the person at a fixed list position is
computed pointwise (person ids are assumed distinct, as produced by
`uuidv4`). -/

/-- The number of duty entries in `ms` that assign person `pid` to role
`rid`. -/
def countAssignments (ms : List Meeting) (pid : PersonId) (rid : RoleId) : Nat :=
  (ms.map (fun m =>
    (m.duties.filter
      (fun rd => decide (rd.1 = rid ∧ rd.2.personId = some pid))).length)).sum

/-- The dates (in meeting order) of the duty entries in `ms` assigning
`pid` to `rid`. -/
def assignDates (ms : List Meeting) (pid : PersonId) (rid : RoleId) : List Nat :=
  ms.flatMap (fun m => m.duties.filterMap
    (fun rd => if rd.1 = rid ∧ rd.2.personId = some pid then some m.date
               else none))

/-- The maximum of a list of dates, if any. -/
def maxDate? : List Nat → Option Nat
  | [] => none
  | d :: ds =>
      match maxDate? ds with
      | none => some d
      | some m => some (max d m)

/-- Maximum of an optional starting date and further dates, in the order
the lookback loop sees them. -/
def foldMaxDate : Option Nat → List Nat → Option Nat
  | acc, [] => acc
  | none, d :: ds => foldMaxDate (some d) ds
  | some v, d :: ds => foldMaxDate (some (if v < d then d else v)) ds

/-- Maximum of two optional dates. -/
def omaxDate : Option Nat → Option Nat → Option Nat
  | none, b => b
  | some a, none => some a
  | some a, some b => some (max a b)

/-- The pointwise effect of one lookback duty entry on one person
(assuming distinct ids, the `find` hits this person exactly when the duty
names their id). -/
def dutyUpd (d : Nat) (rd : RoleId × Duty) (p : Person) : Person :=
  match rd.2.personId with
  | none => p
  | some pid => if p.id = pid then lookbackPersonUpd d rd.1 p else p

/-- The pointwise effect of one whole lookback meeting. -/
def meetingUpd (m : Meeting) (p : Person) : Person :=
  m.duties.foldl (fun q rd => dutyUpd m.date rd q) p

/-- The pointwise effect of the whole lookback window. -/
def windowUpd (ms : List Meeting) (p : Person) : Person :=
  ms.foldl (fun q m => meetingUpd m q) p

/-- The duty assigning person `p1` used in the lookback witnesses. -/
def p1Duty : Duty :=
  { personId := some "p1", manuallyAssigned := false, hasConflict := false,
    needsReview := false }

/-- A prior-schedule meeting with no duties. -/
def mkEmptyMeeting (k : Nat) : Meeting :=
  { id := k, date := k, day := "Sunday", type := "regular", comment := none,
    duties := [] }

/-- A prior-schedule meeting assigning `p1` to role `r1`. -/
def mkP1Meeting (k : Nat) : Meeting :=
  { id := k, date := k, day := "Sunday", type := "regular", comment := none,
    duties := [("r1", p1Duty)] }

/-- The person used in the lookback witnesses; the stale carried-in count
of 7 must be discarded by the reset. -/
def lbPerson : Person :=
  { id := "p1", roles := ["r1"], availability := [], lastAssigned := [],
    assignmentCount := [("r1", 7)] }

/-- A 9-meeting prior schedule: `p1` held `r1` at meetings 0, 5 and 8;
the lookback window is its last 8 meetings (1–8). -/
def c5WitMeetings : List Meeting :=
  [mkP1Meeting 0, mkEmptyMeeting 1, mkEmptyMeeting 2, mkEmptyMeeting 3,
   mkEmptyMeeting 4, mkP1Meeting 5, mkEmptyMeeting 6, mkEmptyMeeting 7,
   mkP1Meeting 8]

/-- Modelled from the spec: "the most recent date on which the prior
schedule assigned that person to that role across the *entire* prior
history" (the claim's reference value; the code itself never scans beyond
the lookback window). -/
def mostRecentAssignmentAcrossHistory (ms : List Meeting) (pid : PersonId)
    (rid : RoleId) : Option Nat :=
  maxDate? (assignDates ms pid rid)

/-- A 9-meeting prior schedule whose only `r1` assignment of `p1` happens
at meeting 0 — before the 8-meeting lookback window. -/
def c6History : List Meeting :=
  [mkP1Meeting 0, mkEmptyMeeting 1, mkEmptyMeeting 2, mkEmptyMeeting 3,
   mkEmptyMeeting 4, mkEmptyMeeting 5, mkEmptyMeeting 6, mkEmptyMeeting 7,
   mkEmptyMeeting 8]

/-- The person used in the C6 counterexample: the caller supplies no
carried-in last-assigned date. -/
def c6Person : Person :=
  { id := "p1", roles := ["r1"], availability := [], lastAssigned := [],
    assignmentCount := [] }

/-- The person used in the C6 amended-theorem witness: the caller supplies
a carried-in last-assigned date of 3 for `r1`. -/
def c6WitPerson : Person :=
  { id := "p1", roles := ["r1"], availability := [], lastAssigned := [("r1", 3)],
    assignmentCount := [] }

/-! ### C1 / C2 / C7 / C10: the per-meeting assignment invariant -/

/-- The (id, availability) pairs of a people list; the engine's state
updates never touch these two fields. -/
def idAvail (ps : List Person) : List (PersonId × List AvailBlock) :=
  ps.map (fun p => (p.id, p.availability))

/-- A person record carrying only an (id, availability) pair (used to
state availability facts against the immutable pair list). -/
def availPerson (pr : PersonId × List AvailBlock) : Person :=
  { id := pr.1, roles := [], availability := pr.2, lastAssigned := [],
    assignmentCount := [] }

/-- Correctness of one recorded duty: null with a matching `unfilled`
conflict, or a qualified available person, not manually assigned. -/
def DutyOk (PA : List (PersonId × List AvailBlock)) (conflicts : List Conflict)
    (mId mDate : Nat) (role : Role) (d : Duty) : Prop :=
  (d.personId = none → d.manuallyAssigned = false ∧ d.hasConflict = true ∧
    ∃ c ∈ conflicts,
      c.type = "unfilled" ∧ c.meetingId = mId ∧ c.roleId = role.id) ∧
  (∀ pid, d.personId = some pid →
    d.manuallyAssigned = false ∧ d.hasConflict = false ∧ pid ∈ role.peopleIds ∧
    ∃ pr ∈ PA, pr.1 = pid ∧ isPersonAvailable (availPerson pr) mDate = true)

/-- All fields but the duty map agree. -/
def MeetingFieldsEq (m0 m : Meeting) : Prop :=
  m.id = m0.id ∧ m.date = m0.date ∧ m.day = m0.day ∧ m.type = m0.type ∧
  m.comment = m0.comment

/-- The invariant of the inner role loop for one meeting `m0`, after the
roles in `processed` have been assigned: the meeting's bookkeeping entry
in `scheduleAssignments` mirrors the engine-written duties, every
processed role has a correct duty, unprocessed role ids still hold the
pre-seeded duties, and no two entries name the same person. -/
def MeetingInv (PA : List (PersonId × List AvailBlock)) (m0 : Meeting)
    (processed : List Role) (m : Meeting) (st : GenState) : Prop :=
  MeetingFieldsEq m0 m ∧
  ∃ amap, getA st.schedAssign m0.id = some amap ∧
    (∀ role ∈ processed, ∃ d, getA m.duties role.id = some d ∧
      getA amap role.id = some d.personId ∧
      DutyOk PA st.conflicts m0.id m0.date role d) ∧
    (∀ rid, rid ∉ processed.map (·.id) →
      getA m.duties rid = getA m0.duties rid ∧ getA amap rid = none) ∧
    (∀ rid1 rid2 pid, rid1 ≠ rid2 → getA amap rid1 = some (some pid) →
      getA amap rid2 = some (some pid) → False)

/-- Property checker: the two roles' recorded duties in this meeting name
the same non-null person. -/
def sharesPerson (m : Meeting) (r1 r2 : Role) : Bool :=
  match getA m.duties r1.id, getA m.duties r2.id with
  | some d1, some d2 =>
      match d1.personId, d2.personId with
      | some p1, some p2 => decide (p1 = p2)
      | _, _ => false
  | _, _ => false

/-- A concrete run with two roles nobody qualifies for: no people, one
generated week from date 0 with default settings. -/
def zqRng : Nat → Nat := fun _ => 0

def zqR1 : Role :=
  { id := "r1", name := "Alpha", allowGrouping := false, peopleIds := [] }

def zqR2 : Role :=
  { id := "r2", name := "Beta", allowGrouping := false, peopleIds := [] }

def zqEmptySched : Schedule :=
  { startDate := 0, endDate := 0, meetings := [], conflicts := [],
    cancelledDates := [] }

def zqSched : Schedule :=
  (generateSchedule zqRng 0 1 [] [zqR1, zqR2] [] none none [] []).getD
    zqEmptySched

def zqMeeting : Meeting :=
  zqSched.meetings.headD
    { id := 0, date := 0, day := "", type := "", comment := none, duties := [] }

/-- The colliding scenario: one person `p1`, one supplied role `r1` that
`p1` qualifies for, one special occurrence pre-seeding a duty for a role
id `r0` outside the supplied list assigning the same `p1`, the regular
dates all omitted. -/
def cxRng : Nat → Nat := fun _ => 0

def cxP1 : Person :=
  { id := "p1", roles := ["r1"], availability := [], lastAssigned := [],
    assignmentCount := [] }

def cxR1 : Role :=
  { id := "r1", name := "Main", allowGrouping := false, peopleIds := ["p1"] }

def cxPre : Duty :=
  { personId := some "p1", manuallyAssigned := true, hasConflict := false,
    needsReview := false }

def cxSpecial : SpecialMeeting :=
  { id := 7, date := 5, comment := some "anniversary",
    duties := [("r0", cxPre)] }

def cxOmits : List OmittedDate := [{ date := 0 }, { date := 3 }]

def cxMd : MeetingDate :=
  { date := 5, day := "Tuesday", type := "special",
    comment := some "anniversary", isSpecial := true,
    specialMeetingId := some 7, duties := [("r0", cxPre)] }

def cxM0 : Meeting :=
  { id := 0, date := 5, day := "Tuesday", type := "special",
    comment := some "anniversary", duties := [("r0", cxPre)] }

def cxEngineDuty : Duty :=
  { personId := some "p1", manuallyAssigned := false, hasConflict := false,
    needsReview := false }

def cxMFin : Meeting :=
  { id := 0, date := 5, day := "Tuesday", type := "special",
    comment := some "anniversary",
    duties := [("r0", cxPre), ("r1", cxEngineDuty)] }

def cxP1Fin : Person :=
  { id := "p1", roles := ["r1"], availability := [],
    lastAssigned := [("r1", 5)], assignmentCount := [("r1", 1)] }

def cxSt0 : GenState :=
  { peopleState := [cxP1], schedAssign := [(0, [])], groupPrefs := [],
    conflicts := [], rngIdx := 0 }

def cxStFin : GenState :=
  { peopleState := [cxP1Fin], schedAssign := [(0, [("r1", some "p1")])],
    groupPrefs := [], conflicts := [], rngIdx := 1 }

def cxSched : Schedule :=
  { startDate := 5, endDate := 5, meetings := [cxMFin], conflicts := [],
    cancelledDates := [] }

/-! ### C9: the heap model of the people copies

The pure model above treats the person records as values, which silently
assumes the engine's mutations never reach the caller's objects.  To
verify that aliasing discipline itself, this section re-embeds
`generateSchedule` over an explicit heap: each JS map object
(`p.lastAssigned`, `p.assignmentCount`) is a cell of a store, a person
record holds the two cell references, `{ ...p.lastAssigned }` is an
allocation of a fresh cell holding the read value, and
`person.lastAssigned[roleId] = …` is a write to the referenced cell.
`assignRoleToMeeting` only reads the people, so the heap engine reuses
the pure `assignRoleToMeeting` on the dereferenced view of the people. -/

/-- The value of one JS map object (`lastAssigned` or `assignmentCount`:
both role-id keyed with numeric values). -/
abbrev HMap := List (RoleId × Nat)

/-- The heap: a cell per allocated map object, the reference is the
index, allocation appends. -/
abbrev MStore := List HMap

/-- A person record as the caller holds it: plain fields plus references
to the two map objects. -/
structure PersonH where
  id : PersonId
  roles : List RoleId
  availability : List AvailBlock
  la : Nat
  ac : Nat
deriving Repr, DecidableEq

def readM (st : MStore) (r : Nat) : HMap := (st.get? r).getD []

def allocM (st : MStore) (v : HMap) : MStore × Nat := (st ++ [v], st.length)

def writeM (st : MStore) (r : Nat) (v : HMap) : MStore := st.set r v

/-- The person value the engine's read-only helpers see. -/
def materializeP (st : MStore) (p : PersonH) : Person :=
  { id := p.id, roles := p.roles, availability := p.availability,
    lastAssigned := readM st p.la, assignmentCount := readM st p.ac }

def materialize (st : MStore) (ps : List PersonH) : List Person :=
  ps.map (materializeP st)

/-- `people.map(p => ({ ...p, lastAssigned: { ...p.lastAssigned },
assignmentCount: { ...p.assignmentCount } }))`: fresh cells holding
copies of the two maps, a fresh person record referencing them. -/
def copyPeopleH : List PersonH → MStore → MStore × List PersonH
  | [], st => (st, [])
  | p :: ps, st =>
      let a1 := allocM st (readM st p.la)
      let a2 := allocM a1.1 (readM st p.ac)
      let rest := copyPeopleH ps a2.1
      (rest.1, { p with la := a1.2, ac := a2.2 } :: rest.2)

/-- `peopleState.forEach(person => { person.assignmentCount = {}; })`:
each copied record is re-pointed at a fresh empty cell. -/
def resetCountsH : List PersonH → MStore → MStore × List PersonH
  | [], st => (st, [])
  | p :: ps, st =>
      let a := allocM st []
      let rest := resetCountsH ps a.1
      (rest.1, { p with ac := a.2 } :: rest.2)

/-- `peopleState.find(p => p.id === pid)`. -/
def findH (pid : PersonId) : List PersonH → Option PersonH
  | [] => none
  | p :: ps => if p.id = pid then some p else findH pid ps

/-- The lookback mutation of one found person, on the heap: conditional
write of the `lastAssigned` cell, then increment in the
`assignmentCount` cell. -/
def lookbackPersonUpdH (meetingDate : Nat) (rid : RoleId) (p : PersonH)
    (st : MStore) : MStore :=
  let la := readM st p.la
  let st1 :=
    match getA la rid with
    | none => writeM st p.la (setA la rid meetingDate)
    | some old =>
        if old < meetingDate then writeM st p.la (setA la rid meetingDate)
        else st
  let ac := readM st1 p.ac
  writeM st1 p.ac (setA ac rid ((getA ac rid).getD 0 + 1))

def lookbackApplyDutyH (meetingDate : Nat) (ps : List PersonH) (st : MStore)
    (rd : RoleId × Duty) : MStore :=
  match rd.2.personId with
  | none => st
  | some pid =>
      match findH pid ps with
      | none => st
      | some p => lookbackPersonUpdH meetingDate rd.1 p st

def lookbackApplyMeetingH (ps : List PersonH) (st : MStore)
    (meeting : Meeting) : MStore :=
  meeting.duties.foldl (lookbackApplyDutyH meeting.date ps) st

/-- The lookback phase on the heap. -/
def lookbackPhaseH (ps : List PersonH) (existingMeetings : List Meeting)
    (st : MStore) : MStore × List PersonH :=
  let r := resetCountsH ps st
  ((lookbackWindow existingMeetings).foldl (lookbackApplyMeetingH r.2) r.1,
   r.2)

/-- The loop state of the heap engine. -/
structure GenStateH where
  peopleState : List PersonH
  store : MStore
  schedAssign : SchedAssign
  groupPrefs : GroupPrefs
  conflicts : List Conflict
  rngIdx : Nat
deriving Repr

/-- `person.lastAssigned[role.id] = meeting.date;
person.assignmentCount[role.id] = (person.assignmentCount[role.id] || 0) + 1`
on the heap. -/
def assignUpdH (rid : RoleId) (meetingDate : Nat) (p : PersonH)
    (st : MStore) : MStore :=
  let st1 := writeM st p.la (setA (readM st p.la) rid meetingDate)
  writeM st1 p.ac
    (setA (readM st1 p.ac) rid ((getA (readM st1 p.ac) rid).getD 0 + 1))

/-- `processRole` on the heap: the assignment call reads the
dereferenced people, the person-state update writes the found person's
cells. -/
def processRoleH (rng : Nat → Nat) (midweekDay : String)
    (meetings0 : List Meeting) (meetingIndex : Nat)
    (acc : Meeting × GenStateH) (role : Role) : Meeting × GenStateH :=
  let meeting := acc.1
  let st := acc.2
  let out := assignRoleToMeeting rng st.rngIdx meeting role
    (materialize st.store st.peopleState) st.schedAssign meetings0
    meetingIndex st.groupPrefs
  let duty := out.duty
  let meeting' := { meeting with duties := setA meeting.duties role.id duty }
  let amap := (getA st.schedAssign meeting.id).getD []
  let schedAssign' := setA st.schedAssign meeting.id
    (setA amap role.id duty.personId)
  let store' :=
    match duty.personId with
    | some pid =>
        match findH pid st.peopleState with
        | some p => assignUpdH role.id meeting.date p st.store
        | none => st.store
    | none => st.store
  let groupPrefs' :=
    match duty.personId with
    | some pid =>
        if role.allowGrouping ∧ meeting.day = midweekDay then
          setA st.groupPrefs meeting.id
            (setA ((getA st.groupPrefs meeting.id).getD []) role.id pid)
        else st.groupPrefs
    | none => st.groupPrefs
  (meeting',
   { peopleState := st.peopleState, store := store',
     schedAssign := schedAssign', groupPrefs := groupPrefs',
     conflicts := st.conflicts ++ out.newConflicts,
     rngIdx := st.rngIdx + (if out.usedRng then 1 else 0) })

def processMeetingH (rng : Nat → Nat) (roles : List Role)
    (midweekDay : String) (meetings0 : List Meeting) (meetingIndex : Nat)
    (meeting : Meeting) (st : GenStateH) : Meeting × GenStateH :=
  let st0 := { st with schedAssign := setA st.schedAssign meeting.id [] }
  let sortedRoles := sortBy roleLenLe roles
  sortedRoles.foldl (processRoleH rng midweekDay meetings0 meetingIndex)
    (meeting, st0)

def processMeetingsH (rng : Nat → Nat) (roles : List Role)
    (midweekDay : String) (meetings0 : List Meeting) :
    Nat → List Meeting → GenStateH → List Meeting × GenStateH
  | _, [], st => ([], st)
  | i, m :: rest, st =>
      let r1 := processMeetingH rng roles midweekDay meetings0 i m st
      let r2 := processMeetingsH rng roles midweekDay meetings0 (i + 1) rest
        r1.2
      (r1.1 :: r2.1, r2.2)

/-- The working heap state entering the assignment loop: the copies,
then the lookback phase when a non-empty existing schedule is
supplied. -/
def gshInit (people : List PersonH) (existingSchedule : Option Schedule)
    (st0 : MStore) : MStore × List PersonH :=
  let cp := copyPeopleH people st0
  match existingSchedule with
  | some ex =>
      if ex.meetings.length > 0 then lookbackPhaseH cp.2 ex.meetings cp.1
      else (cp.1, cp.2)
  | none => (cp.1, cp.2)

/-- `generateSchedule` on the heap: the caller's store comes in, the
engine's copies live in freshly allocated cells, the final store comes
out with the returned schedule. -/
def generateScheduleH (rng : Nat → Nat) (startDate : Nat) (weeks : Nat)
    (people : List PersonH) (roles : List Role) (cancelledDates : List Nat)
    (existingSchedule : Option Schedule) (settings : Option Settings)
    (omittedDates : List OmittedDate) (specialMeetings : List SpecialMeeting)
    (st0 : MStore) : Option (Schedule × MStore) :=
  match generateMeetingDates startDate weeks cancelledDates settings
    omittedDates specialMeetings with
  | none => none
  | some meetingDates =>
      let midweekDay := midweekNameOf settings
      let meetings := buildMeetings meetingDates
      let init := gshInit people existingSchedule st0
      let stG : GenStateH :=
        { peopleState := init.2, store := init.1, schedAssign := [],
          groupPrefs := [], conflicts := [], rngIdx := 0 }
      let res := processMeetingsH rng roles midweekDay meetings 0 meetings stG
      some ({ startDate := ((res.1.head?).map (·.date)).getD startDate,
              endDate := ((res.1.getLast?).map (·.date)).getD startDate,
              meetings := res.1, conflicts := res.2.conflicts,
              cancelledDates := cancelledDates },
            res.2.store)

/-- Store evolution that leaves the first `n` cells untouched. -/
def PresFrom (n : Nat) (st0 st : MStore) : Prop :=
  n ≤ st.length ∧ ∀ r, r < n → st.get? r = st0.get? r

/-- All of these people's cell references lie at or above `n`. -/
def HighRefs (n : Nat) (ps : List PersonH) : Prop :=
  ∀ p ∈ ps, n ≤ p.la ∧ n ≤ p.ac

/-- A concrete caller heap: one person whose `lastAssigned` map lives in
cell 0 and `assignmentCount` map in cell 1, extending a one-meeting
existing schedule (so the lookback phase performs writes) with a role
nobody qualifies for (so the run records conflicts). -/
def c9Rng : Nat → Nat := fun _ => 0

def c9St0 : MStore := [[("r1", 1)], []]

def c9P : PersonH :=
  { id := "p1", roles := ["r1"], availability := [], la := 0, ac := 1 }

def c9Role : Role :=
  { id := "r1", name := "Alpha", allowGrouping := false, peopleIds := [] }

def c9ExMeeting : Meeting :=
  { id := 0, date := 2, day := "Thursday", type := "regular",
    comment := none,
    duties := [("r1", { personId := some "p1", manuallyAssigned := false,
                        hasConflict := false, needsReview := false })] }

def c9Existing : Schedule :=
  { startDate := 2, endDate := 2, meetings := [c9ExMeeting], conflicts := [],
    cancelledDates := [] }

def c9Out : Schedule × MStore :=
  (generateScheduleH c9Rng 0 1 [c9P] [c9Role] [] (some c9Existing) none [] []
    c9St0).getD
    ({ startDate := 0, endDate := 0, meetings := [], conflicts := [],
       cancelledDates := [] }, [])

/-! ### Theorems -/

theorem getA_setA_self {κ β : Type} [DecidableEq κ] (m : List (κ × β)) (k : κ) (v : β) :
    getA (setA m k v) k = some v := by
  induction m with
  | nil => simp [getA, setA]
  | cons kv rest ih =>
      obtain ⟨k', v'⟩ := kv
      by_cases h : k' = k
      · simp [setA, h, getA]
      · simp [setA, h, getA, ih]

theorem getA_setA_ne {κ β : Type} [DecidableEq κ] (m : List (κ × β)) (k k' : κ) (v : β)
    (h : k ≠ k') : getA (setA m k v) k' = getA m k' := by
  induction m with
  | nil => simp [getA, setA, h]
  | cons kv rest ih =>
      obtain ⟨k₀, v₀⟩ := kv
      by_cases h₀ : k₀ = k
      · simp [setA, h₀, getA, h]
      · by_cases h₁ : k₀ = k'
        · simp [setA, h₀, getA, h₁, Ne.symm h]
        · simp [setA, h₀, getA, h₁, ih]

theorem getA_mem_values {κ β : Type} [DecidableEq κ] (m : List (κ × β)) (k : κ) (v : β)
    (h : getA m k = some v) : v ∈ valuesA m := by
  induction m with
  | nil => simp [getA] at h
  | cons kv rest ih =>
      obtain ⟨k₀, v₀⟩ := kv
      by_cases h₀ : k₀ = k
      · simp [getA, h₀] at h
        simp [valuesA, h]
      · simp [getA, h₀] at h
        simp [valuesA]
        right
        have := ih h
        simpa [valuesA] using this

theorem keys_removeA_subset {κ β : Type} [DecidableEq κ] (m : List (κ × β)) (k : κ) :
    ∀ kv ∈ removeA m k, kv ∈ m := by
  induction m with
  | nil => simp [removeA]
  | cons kv₀ rest ih =>
      obtain ⟨k₀, v₀⟩ := kv₀
      by_cases h₀ : k₀ = k
      · intro kv hkv
        simp [removeA, h₀] at hkv
        simp [hkv]
      · intro kv hkv
        simp [removeA, h₀] at hkv
        rcases hkv with h | h
        · simp [h]
        · exact List.mem_cons_of_mem _ (ih kv h)

theorem mem_insertSorted {α : Type} (le : α → α → Bool) (x a : α) (l : List α) :
    a ∈ insertSorted le x l ↔ a = x ∨ a ∈ l := by
  induction l with
  | nil => simp [insertSorted]
  | cons y ys ih =>
      by_cases h : le x y
      · simp [insertSorted, h]
      · simp [insertSorted, h, ih]
        tauto

theorem mem_sortBy {α : Type} (le : α → α → Bool) (a : α) (l : List α) :
    a ∈ sortBy le l ↔ a ∈ l := by
  induction l with
  | nil => simp [sortBy]
  | cons y ys ih =>
      simp [sortBy, List.foldr] at *
      rw [mem_insertSorted]
      tauto

theorem insertSorted_perm {α : Type} (le : α → α → Bool) (x : α) (l : List α) :
    List.Perm (insertSorted le x l) (x :: l) := by
  induction l with
  | nil => simp [insertSorted]
  | cons z zs ihz =>
      by_cases h : le x z
      · simp [insertSorted, h]
      · simp only [insertSorted, h, Bool.false_eq_true, if_false]
        exact List.Perm.trans (List.Perm.cons z ihz) (List.Perm.swap x z zs)

theorem sortBy_perm {α : Type} (le : α → α → Bool) (l : List α) :
    List.Perm (sortBy le l) l := by
  induction l with
  | nil => simp [sortBy]
  | cons y ys ih =>
      exact List.Perm.trans (insertSorted_perm le y (sortBy le ys))
        (List.Perm.cons y ih)

theorem length_sortBy {α : Type} (le : α → α → Bool) (l : List α) :
    (sortBy le l).length = l.length :=
  (sortBy_perm le l).length_eq

/-! ### Lemmas about `generateMeetingDates` -/

theorem mem_setA {κ β : Type} [DecidableEq κ] (m : List (κ × β)) (k : κ) (v : β)
    (kv : κ × β) (h : kv ∈ setA m k v) : kv = (k, v) ∨ kv ∈ m := by
  induction m with
  | nil => simp [setA] at h; simp [h]
  | cons kv₀ rest ih =>
      obtain ⟨k₀, v₀⟩ := kv₀
      by_cases h₀ : k₀ = k
      · simp [setA, h₀] at h
        tauto
      · simp [setA, h₀] at h
        rcases h with h | h
        · simp [h]
        · rcases ih h with h' | h' <;> simp [h']

/-- Every entry of the special-meetings map built by `generateMeetingDates`
has a key that is one of the special-meeting dates. -/
theorem specialMap_keys (specials : List SpecialMeeting)
    (m0 : List (Nat × SpecialMeeting)) (kv : Nat × SpecialMeeting)
    (h : kv ∈ specials.foldl (fun m sm => setA m sm.date sm) m0) :
    kv ∈ m0 ∨ kv.1 ∈ specials.map (·.date) := by
  induction specials generalizing m0 with
  | nil => simp at h; simp [h]
  | cons sm rest ih =>
      simp only [List.foldl] at h
      rcases ih _ h with h' | h'
      · rcases mem_setA _ _ _ _ h' with h'' | h''
        · right; simp [h'']
        · simp [h'']
      · right; simp [h']

/-- The occurrences emitted by the main walk never fall on an omitted (or
cancelled) date. -/
theorem walkDays_not_omitted (midweekDayNum : Nat) (weekendDayNum : Option Nat)
    (midweekDay weekendDay : String) (cancelledSet omittedSet : List Nat)
    (fuel : Nat) (cur : Nat) (smap : List (Nat × SpecialMeeting)) :
    ∀ md ∈ (walkDays midweekDayNum weekendDayNum midweekDay weekendDay
        cancelledSet omittedSet fuel cur smap).1, md.date ∉ omittedSet := by
  induction fuel generalizing cur smap with
  | zero => simp [walkDays]
  | succ fuel ih =>
      intro md hmd
      simp only [walkDays] at hmd
      by_cases hday : jsGetDay cur = midweekDayNum ∨ some (jsGetDay cur) = weekendDayNum
      · simp only [hday, if_true] at hmd
        by_cases hskip : cur ∈ cancelledSet ∨ cur ∈ omittedSet
        · simp only [hskip, if_true] at hmd
          exact ih _ _ md hmd
        · simp only [hskip, if_false] at hmd
          cases hsm : getA smap cur with
          | some sm =>
              simp only [hsm] at hmd
              rcases List.mem_cons.mp hmd with h | h
              · subst h
                intro hc
                exact hskip (Or.inr hc)
              · exact ih _ _ md h
          | none =>
              simp only [hsm] at hmd
              rcases List.mem_cons.mp hmd with h | h
              · subst h
                intro hc
                exact hskip (Or.inr hc)
              · exact ih _ _ md h
      · simp only [hday, if_false] at hmd
        exact ih _ _ md hmd

/-- The walk only ever deletes from the special-meetings map. -/
theorem walkDays_smap_subset (midweekDayNum : Nat) (weekendDayNum : Option Nat)
    (midweekDay weekendDay : String) (cancelledSet omittedSet : List Nat)
    (fuel : Nat) (cur : Nat) (smap : List (Nat × SpecialMeeting)) :
    ∀ kv ∈ (walkDays midweekDayNum weekendDayNum midweekDay weekendDay
        cancelledSet omittedSet fuel cur smap).2, kv ∈ smap := by
  induction fuel generalizing cur smap with
  | zero => simp [walkDays]
  | succ fuel ih =>
      intro kv hkv
      simp only [walkDays] at hkv
      by_cases hday : jsGetDay cur = midweekDayNum ∨ some (jsGetDay cur) = weekendDayNum
      · simp only [hday, if_true] at hkv
        by_cases hskip : cur ∈ cancelledSet ∨ cur ∈ omittedSet
        · simp only [hskip, if_true] at hkv
          exact ih _ _ kv hkv
        · simp only [hskip, if_false] at hkv
          cases hsm : getA smap cur with
          | some sm =>
              simp only [hsm] at hkv
              exact keys_removeA_subset smap cur kv (ih _ _ kv hkv)
          | none =>
              simp only [hsm] at hkv
              exact ih _ _ kv hkv
      · simp only [hday, if_false] at hkv
        exact ih _ _ kv hkv

/-- C4 (amended): for every date in the omitted set that does not coincide
with a special-occurrence date, `generateMeetingDates` emits no occurrence
on that date.  (The coincidence case goes the other way: see the
counterexample.) -/
theorem c4_omission_suppresses_noncoinciding_dates
    (startDate : Nat) (weeks : Nat) (cancelledDates : List Nat)
    (settings : Option Settings) (omittedDates : List OmittedDate)
    (specialMeetings : List SpecialMeeting) (mds : List MeetingDate) (d : Nat)
    (hgen : generateMeetingDates startDate weeks cancelledDates settings
      omittedDates specialMeetings = some mds)
    (hom : d ∈ omittedDates.map (·.date))
    (hsp : ∀ sm ∈ specialMeetings, sm.date ≠ d) :
    ∀ md ∈ mds, md.date ≠ d := by
  intro md hmd
  unfold generateMeetingDates at hgen
  simp only [] at hgen
  cases hdm : dayMap (midweekNameOf settings) with
  | none => rw [hdm] at hgen; simp at hgen
  | some midweekDayNum =>
      rw [hdm] at hgen
      simp only [Option.some.injEq] at hgen
      subst hgen
      have hmem := (mem_sortBy _ _ _).mp hmd
      rcases List.mem_append.mp hmem with h | h
      · have hno := walkDays_not_omitted midweekDayNum (dayMap (weekendNameOf settings))
          (midweekNameOf settings) (weekendNameOf settings) cancelledDates
          (omittedDates.map (·.date)) (weeks * 7)
          (advanceToDay midweekDayNum 7 startDate) _ md h
        intro heq
        exact hno (heq ▸ hom)
      · rcases List.mem_filterMap.mp h with ⟨kv, hkv, hcond⟩
        by_cases hin : startDate ≤ kv.1 ∧
            kv.1 < advanceToDay midweekDayNum 7 startDate + weeks * 7
        · rw [if_pos hin] at hcond
          have hdate : md.date = kv.1 := by
            cases hcond; rfl
          have hkv' := walkDays_smap_subset midweekDayNum
            (dayMap (weekendNameOf settings)) (midweekNameOf settings)
            (weekendNameOf settings) cancelledDates (omittedDates.map (·.date))
            (weeks * 7) (advanceToDay midweekDayNum 7 startDate) _ kv hkv
          have hkey := specialMap_keys specialMeetings [] kv hkv'
          simp only [List.not_mem_nil, false_or] at hkey
          rcases List.mem_map.mp hkey with ⟨sm, hsm, hsmdate⟩
          rw [hdate, ← hsmdate]
          exact hsp sm hsm
        · rw [if_neg hin] at hcond
          cases hcond

/-- C4 amended-theorem witness: one omitted Sunday with no special meeting,
over one week from the epoch Thursday. -/
theorem c4_omission_suppresses_noncoinciding_dates_witness :
    generateMeetingDates 0 1 [] none [{date := 3}] [] = some [c4WitnessMd] ∧
    ∀ md ∈ [c4WitnessMd], md.date ≠ 3 :=
  ⟨by decide,
   c4_omission_suppresses_noncoinciding_dates 0 1 [] none [{date := 3}] [] _ 3
     (by decide) (by decide) (by decide)⟩

/-- C4 counterexample: when an omitted date (epoch day 3, a Sunday)
coincides with a special-occurrence date, the generator still emits a
`special` occurrence on that date — omission does not take priority; the
special record survives the skipped main-walk day and is re-emitted by the
leftover-special pass. -/
theorem c4_counterexample_special_beats_omission :
    ∃ mds, generateMeetingDates 0 1 [] none [{date := 3}]
        [{ id := 7, date := 3, comment := some "Memorial", duties := [] }] = some mds ∧
      (3 : Nat) ∈ ([{date := 3}] : List OmittedDate).map (·.date) ∧
      ∃ md ∈ mds, md.date = 3 ∧ md.type = "special" := by
  refine ⟨_, rfl, by decide, ?_⟩
  decide

/-- C3 counterexample: with Wednesday/Saturday as the two configured
weekdays, a pair of consecutive occurrences in the same calendar week
(epoch days 6 and 9) fails the scoring function's same-week test, and the
candidate recorded as the preceding occurrence's assignee receives no
continuity bonus: their score is identical to the score with no
preceding-assignee record at all (160, not 1160). -/
theorem c3_counterexample_wednesday_saturday_no_bonus :
    sameCalendarWeek 6 9 = true ∧ isSameWeek 6 9 = false ∧
    scorePerson c3Person c3Role c3MeetingSat 1 [c3MeetingWed, c3MeetingSat] []
        [(0, [("r1", "p1")])] [c3Person] =
      scorePerson c3Person c3Role c3MeetingSat 1 [c3MeetingWed, c3MeetingSat] []
        [] [c3Person] ∧
    scorePerson c3Person c3Role c3MeetingSat 1 [c3MeetingWed, c3MeetingSat] []
        [(0, [("r1", "p1")])] [c3Person] = 160 := by
  refine ⟨by decide, by decide, ?_, ?_⟩ <;>
    · simp only [scorePerson, groupingContinuityBonus, groupingAntiRepeatPenalty,
        roleLoadPenalty, totalLoadPenalty, roleDiversityBonus, recencyTerm,
        calculateAverageAssignments, calculateAverageTotalAssignments,
        totalAssignmentsOf, getDaysSinceLastAssignment, prefLookup, isSameWeek,
        jsGetDay, getA, valuesA, c3Person, c3Role, c3MeetingSat, c3MeetingWed]
      norm_num [getA, Option.getD]

/-- C3 (amended): the same-week test used by scoring holds exactly for a
Thursday followed three days later by a Sunday (the hard-coded
Thursday→Sunday pair), not for arbitrary same-calendar-week pairs; and
whenever that test holds between consecutive occurrences, the scoring
function's continuity term awards the 1000-point bonus exactly to the
candidate recorded as the preceding occurrence's assignee for the
grouping-enabled role. -/
theorem c3_sameweek_hardcoded_thursday_sunday :
    (∀ d1 d2 : ℕ, isSameWeek d1 d2 = true ↔ jsGetDay d1 = 4 ∧ d2 = d1 + 3) ∧
    (∀ (person : Person) (role : Role) (meeting : Meeting) (i : Nat)
        (meetings : List Meeting) (prefs : GroupPrefs) (prev : Meeting),
      role.allowGrouping = true → meetings.get? i = some prev →
      isSameWeek prev.date meeting.date = true →
      groupingContinuityBonus person role meeting (i + 1) meetings prefs =
        if prefLookup prefs prev.id role.id = some person.id then 1000 else 0) := by
  constructor
  · intro d1 d2
    simp only [isSameWeek, jsGetDay]
    by_cases h : d2 ≤ d1
    · simp only [h, if_true, Bool.false_eq_true, false_iff]
      omega
    · simp only [h, if_false, Bool.and_eq_true, decide_eq_true_eq]
      omega
  · intro person role meeting i meetings prefs prev hg hget hsw
    unfold groupingContinuityBonus
    rw [if_pos ⟨by simp [hg], Nat.succ_pos i⟩]
    simp only [Nat.add_sub_cancel, hget, hsw, if_true]

/-- C3 amended-theorem witness: epoch Thursday 0 → Sunday 3 with the
candidate recorded as the Thursday assignee receives exactly the
1000-point continuity term. -/
theorem c3_sameweek_hardcoded_thursday_sunday_witness :
    (isSameWeek 0 3 = true ↔ jsGetDay 0 = 4 ∧ 3 = 0 + 3) ∧
    groupingContinuityBonus c3Person c3Role
        { id := 1, date := 3, day := "Sunday", type := "regular",
          comment := none, duties := [] } 1
        [{ id := 0, date := 0, day := "Thursday", type := "regular",
           comment := none, duties := [] }] [(0, [("r1", "p1")])] =
      (if prefLookup [(0, [("r1", "p1")])] 0 "r1" = some "p1" then 1000 else 0) :=
  ⟨c3_sameweek_hardcoded_thursday_sunday.1 0 3,
   c3_sameweek_hardcoded_thursday_sunday.2 c3Person c3Role
     { id := 1, date := 3, day := "Sunday", type := "regular",
       comment := none, duties := [] } 0
     [{ id := 0, date := 0, day := "Thursday", type := "regular",
        comment := none, duties := [] }] [(0, [("r1", "p1")])]
     { id := 0, date := 0, day := "Thursday", type := "regular",
       comment := none, duties := [] } (by decide) (by decide) (by decide)⟩

/-! ### C8: the near-tie tolerance of the random pick -/

theorem headD_mem {α : Type} (l : List α) (d : α) (h : l ≠ []) : l.headD d ∈ l := by
  cases l with
  | nil => exact absurd rfl h
  | cons x xs => simp [List.headD]

theorem getD_mem {α : Type} (l : List α) (i : Nat) (d : α) (h : i < l.length) :
    l.getD i d ∈ l := by
  induction l generalizing i with
  | nil => simp at h
  | cons x xs ih =>
      cases i with
      | zero => simp [List.getD]
      | succ n =>
          simp only [List.getD_cons_succ]
          exact List.mem_cons_of_mem _ (ih n (by simpa using h))

/-- After the descending stable sort, the head has the maximum score. -/
theorem headMax_insertSorted (a : ScoredPerson) (s : List ScoredPerson)
    (hm : ∀ x ∈ s, x.score ≤ (s.headD dummyScored).score) :
    ∀ x ∈ insertSorted scoreDescLe a s,
      x.score ≤ ((insertSorted scoreDescLe a s).headD dummyScored).score := by
  cases s with
  | nil =>
      intro x hx
      simp [insertSorted] at hx
      simp [insertSorted, hx, List.headD]
  | cons y ys =>
      by_cases h : scoreDescLe a y
      · have hya : y.score ≤ a.score := by
          simpa [scoreDescLe, decide_eq_true_eq] using h
        intro x hx
        simp only [insertSorted, h, if_true, List.headD] at hx ⊢
        rcases List.mem_cons.mp hx with h1 | h1
        · simp [h1]
        · calc x.score ≤ y.score := by simpa using hm x h1
            _ ≤ a.score := hya
      · have hay : a.score ≤ y.score := by
          have h' := h
          simp only [scoreDescLe, decide_eq_true_eq] at h'
          exact le_of_lt (lt_of_not_le h')
        intro x hx
        simp only [insertSorted, h, Bool.false_eq_true, if_false, List.headD] at hx ⊢
        rcases List.mem_cons.mp hx with h1 | h1
        · simp [h1]
        · rcases (mem_insertSorted _ _ _ _).mp h1 with h2 | h2
          · simpa [h2] using hay
          · simpa using hm x (List.mem_cons_of_mem _ h2)

theorem headMax_sortDesc (l : List ScoredPerson) :
    ∀ x ∈ sortBy scoreDescLe l,
      x.score ≤ ((sortBy scoreDescLe l).headD dummyScored).score := by
  induction l with
  | nil => simp [sortBy]
  | cons a rest ih =>
      intro x hx
      exact headMax_insertSorted a (sortBy scoreDescLe rest) ih x hx

/-- A non-empty valid-candidate set needs a non-empty eligible set. -/
theorem eligible_ne_of_valid_ne (role : Role) (meeting : Meeting)
    (meetingIndex : Nat) (meetings : List Meeting) (sa : SchedAssign)
    (prefs : GroupPrefs) (peopleState : List Person)
    (hne : validCandidates role meeting meetingIndex meetings sa prefs
      peopleState ≠ []) :
    eligibleFor role peopleState ≠ [] := by
  intro h
  apply hne
  simp [validCandidates, scoredFor, h]

/-- When valid candidates exist, `assignRoleToMeeting` returns a
successful duty for one of them (whatever the random draw), pushes no
conflict, and the winner is within the 5-point tolerance of every valid
candidate. -/
theorem assignRole_picks_valid (rng : Nat → Nat) (rngIdx : Nat)
    (meeting : Meeting) (role : Role) (peopleState : List Person)
    (scheduleAssignments : SchedAssign) (meetings : List Meeting)
    (meetingIndex : Nat) (prefs : GroupPrefs)
    (hne : validCandidates role meeting meetingIndex meetings scheduleAssignments
      prefs peopleState ≠ []) :
    ∃ sp ∈ validCandidates role meeting meetingIndex meetings scheduleAssignments
        prefs peopleState,
      (assignRoleToMeeting rng rngIdx meeting role peopleState scheduleAssignments
        meetings meetingIndex prefs) =
        { duty := createDuty (some sp.person.id) false false false,
          newConflicts := [], usedRng := true } ∧
      ∀ sp' ∈ validCandidates role meeting meetingIndex meetings
          scheduleAssignments prefs peopleState,
        sp'.score - sp.score < 5 := by
  have heligne : eligibleFor role peopleState ≠ [] :=
    eligible_ne_of_valid_ne role meeting meetingIndex meetings
      scheduleAssignments prefs peopleState hne
  have heliglen : ¬ (eligibleFor role peopleState).length = 0 := by
    simpa [List.length_eq_zero] using heligne
  have hvlen : ¬ (validCandidates role meeting meetingIndex meetings
      scheduleAssignments prefs peopleState).length = 0 := by
    simpa [List.length_eq_zero] using hne
  set valid := validCandidates role meeting meetingIndex meetings
    scheduleAssignments prefs peopleState with hvalid
  set sorted := sortBy scoreDescLe valid with hsorted
  have hsortedne : sorted ≠ [] := by
    intro h
    have hlen := length_sortBy scoreDescLe valid
    rw [← hsorted, h] at hlen
    exact hne (List.length_eq_zero.mp hlen.symm)
  set topScore := (sorted.headD dummyScored).score with htop
  set similar := sorted.filter (fun sp => decide (|sp.score - topScore| < 5))
    with hsimilar
  have hheadmem : sorted.headD dummyScored ∈ similar := by
    rw [hsimilar]
    refine List.mem_filter.mpr ⟨headD_mem _ _ hsortedne, ?_⟩
    simp [htop, sub_self, abs_zero]
  have hsimlenpos : 0 < similar.length := List.length_pos.mpr
    (fun h => by simp [h] at hheadmem)
  have hidx : rng rngIdx % similar.length < similar.length :=
    Nat.mod_lt _ hsimlenpos
  set chosen := similar.getD (rng rngIdx % similar.length) dummyScored with hchosen
  have hchosenmem : chosen ∈ similar := getD_mem _ _ _ hidx
  have hchosensorted : chosen ∈ sorted := (List.mem_filter.mp hchosenmem).1
  have hchosenvalid : chosen ∈ valid := (mem_sortBy _ _ _).mp hchosensorted
  have hchosentol : |chosen.score - topScore| < 5 := by
    have := (List.mem_filter.mp hchosenmem).2
    simpa using this
  refine ⟨chosen, hchosenvalid, ?_, ?_⟩
  · unfold assignRoleToMeeting
    rw [if_neg heliglen]
    rw [← hvalid, if_neg hvlen]
  · intro sp' hsp'
    have hsp'sorted : sp' ∈ sorted := (mem_sortBy _ _ _).mpr hsp'
    have h1 : sp'.score ≤ topScore := headMax_sortDesc valid sp' hsp'sorted
    have h2 : topScore - chosen.score < 5 := by
      rcases abs_lt.mp hchosentol with ⟨ha, _⟩
      linarith
    linarith

/-- C8: whenever at least one valid candidate exists for a (meeting, role)
pair, the assigned person is one of the valid candidates and, for every
possible outcome of the random tie-break, their score is within strictly
less than 5 points of every valid candidate's score (hence of the
maximum). -/
theorem c8_assignment_within_near_tie_tolerance (rng : Nat → Nat) (rngIdx : Nat)
    (meeting : Meeting) (role : Role) (peopleState : List Person)
    (scheduleAssignments : SchedAssign) (meetings : List Meeting)
    (meetingIndex : Nat) (prefs : GroupPrefs)
    (hne : validCandidates role meeting meetingIndex meetings scheduleAssignments
      prefs peopleState ≠ []) :
    ∃ sp ∈ validCandidates role meeting meetingIndex meetings scheduleAssignments
        prefs peopleState,
      (assignRoleToMeeting rng rngIdx meeting role peopleState scheduleAssignments
        meetings meetingIndex prefs).duty.personId = some sp.person.id ∧
      ∀ sp' ∈ validCandidates role meeting meetingIndex meetings
          scheduleAssignments prefs peopleState,
        sp'.score - sp.score < 5 := by
  obtain ⟨sp, hmem, hout, htol⟩ := assignRole_picks_valid rng rngIdx meeting role
    peopleState scheduleAssignments meetings meetingIndex prefs hne
  exact ⟨sp, hmem, by rw [hout]; rfl, htol⟩

/-- C8 witness: a single qualified, available candidate is a valid
candidate and is assigned within the tolerance. -/
theorem c8_assignment_within_near_tie_tolerance_witness :
    validCandidates c8Role c8Meeting 0 [c8Meeting] [] [] [c8Person] ≠ [] ∧
    ∃ sp ∈ validCandidates c8Role c8Meeting 0 [c8Meeting] [] [] [c8Person],
      (assignRoleToMeeting (fun _ => 0) 0 c8Meeting c8Role [c8Person] []
        [c8Meeting] 0 []).duty.personId = some sp.person.id ∧
      ∀ sp' ∈ validCandidates c8Role c8Meeting 0 [c8Meeting] [] [] [c8Person],
        sp'.score - sp.score < 5 :=
  ⟨by simp [validCandidates, scoredFor, eligibleFor, isPersonAvailable, getA,
      valuesA, c8Person, c8Role, c8Meeting],
   c8_assignment_within_near_tie_tolerance (fun _ => 0) 0 c8Meeting c8Role
     [c8Person] [] [c8Meeting] 0 []
     (by simp [validCandidates, scoredFor, eligibleFor, isPersonAvailable, getA,
       valuesA, c8Person, c8Role, c8Meeting])⟩

theorem foldMaxDate_eq_omax (l : List Nat) : ∀ init,
    foldMaxDate init l = omaxDate init (maxDate? l) := by
  induction l with
  | nil => intro init; cases init <;> rfl
  | cons d ds ih =>
      intro init
      have hstep : foldMaxDate init (d :: ds) =
          foldMaxDate (omaxDate init (some d)) ds := by
        cases init with
        | none => rfl
        | some v =>
            simp only [foldMaxDate, omaxDate]
            congr 1
            congr 1
            rcases Nat.lt_or_ge v d with h | h
            · simp [h, Nat.max_eq_right (le_of_lt h)]
            · simp [Nat.not_lt.mpr h, Nat.max_eq_left h]
      rw [hstep, ih]
      cases init with
      | none =>
          simp only [omaxDate, maxDate?]
          cases maxDate? ds with
          | none => rfl
          | some m => rfl
      | some v =>
          simp only [omaxDate, maxDate?]
          cases maxDate? ds with
          | none => rfl
          | some m => simp [omaxDate, Nat.max_assoc]

theorem lookbackPersonUpd_id (d : Nat) (rid : RoleId) (p : Person) :
    (lookbackPersonUpd d rid p).id = p.id := rfl

theorem dutyUpd_id (d : Nat) (rd : RoleId × Duty) (p : Person) :
    (dutyUpd d rd p).id = p.id := by
  unfold dutyUpd
  cases rd.2.personId with
  | none => rfl
  | some pid =>
      by_cases h : p.id = pid
      · simp [h, lookbackPersonUpd_id]
      · simp [h]

theorem dutyUpd_count (d : Nat) (rd : RoleId × Duty) (p : Person) (rid : RoleId) :
    (getA (dutyUpd d rd p).assignmentCount rid).getD 0 =
      (getA p.assignmentCount rid).getD 0 +
        (if rd.1 = rid ∧ rd.2.personId = some p.id then 1 else 0) := by
  unfold dutyUpd
  cases hpid : rd.2.personId with
  | none => simp
  | some pid =>
      by_cases h : p.id = pid
      · subst h
        by_cases hr : rd.1 = rid
        · subst hr
          simp [lookbackPersonUpd, getA_setA_self]
        · simp [lookbackPersonUpd, getA_setA_ne _ _ _ _ hr, hr]
      · dsimp only
        rw [if_neg h]
        have hcond : ¬ (rd.1 = rid ∧ pid = p.id) := by
          rintro ⟨_, h2⟩
          exact h h2.symm
        simp [hcond]

theorem dutyUpd_la (d : Nat) (rd : RoleId × Duty) (p : Person) (rid : RoleId) :
    getA (dutyUpd d rd p).lastAssigned rid =
      if rd.1 = rid ∧ rd.2.personId = some p.id then
        omaxDate (getA p.lastAssigned rid) (some d)
      else getA p.lastAssigned rid := by
  unfold dutyUpd
  cases hpid : rd.2.personId with
  | none => simp
  | some pid =>
      by_cases h : p.id = pid
      · subst h
        dsimp only
        rw [if_pos rfl]
        by_cases hr : rd.1 = rid
        · subst hr
          rw [if_pos ⟨rfl, rfl⟩]
          unfold lookbackPersonUpd
          cases hla : getA p.lastAssigned rd.1 with
          | none => simp [hla, getA_setA_self, omaxDate]
          | some old =>
              rcases Nat.lt_or_ge old d with hlt | hge
              · simp [hla, hlt, getA_setA_self, omaxDate,
                  Nat.max_eq_right (le_of_lt hlt)]
              · simp [hla, Nat.not_lt.mpr hge, omaxDate, Nat.max_eq_left hge]
        · have hrhs : ¬ (rd.1 = rid ∧ (some p.id : Option PersonId) = some p.id) :=
            fun hc => hr hc.1
          rw [if_neg hrhs]
          unfold lookbackPersonUpd
          cases hla : getA p.lastAssigned rd.1 with
          | none => simp [getA_setA_ne _ _ _ _ hr]
          | some old =>
              rcases Nat.lt_or_ge old d with hlt | hge
              · simp [hlt, getA_setA_ne _ _ _ _ hr]
              · simp [Nat.not_lt.mpr hge]
      · dsimp only
        rw [if_neg h]
        have hcond : ¬ (rd.1 = rid ∧ pid = p.id) := by
          rintro ⟨_, h2⟩
          exact h h2.symm
        simp [hcond]

theorem foldMaxDate_cons (init : Option Nat) (d : Nat) (l : List Nat) :
    foldMaxDate init (d :: l) = foldMaxDate (omaxDate init (some d)) l := by
  cases init with
  | none => rfl
  | some v =>
      simp only [foldMaxDate, omaxDate]
      congr 2
      rcases Nat.lt_or_ge v d with h | h
      · simp [h, Nat.max_eq_right (le_of_lt h)]
      · simp [Nat.not_lt.mpr h, Nat.max_eq_left h]

theorem foldMaxDate_append (l1 l2 : List Nat) : ∀ init,
    foldMaxDate init (l1 ++ l2) = foldMaxDate (foldMaxDate init l1) l2 := by
  induction l1 with
  | nil => intro init; cases init <;> rfl
  | cons d ds ih =>
      intro init
      rw [List.cons_append, foldMaxDate_cons, foldMaxDate_cons, ih]

/-! Pointwise effect of the lookback folds (ids assumed distinct). -/

theorem updateFirst_ids (pid : PersonId) (f : Person → Person)
    (hf : ∀ p, (f p).id = p.id) :
    ∀ ps : List Person, (updateFirst pid f ps).map (·.id) = ps.map (·.id) := by
  intro ps
  induction ps with
  | nil => rfl
  | cons q qs ih =>
      by_cases hq : q.id = pid
      · simp [updateFirst, hq, hf]
      · simp [updateFirst, hq, ih]

theorem updateFirst_get? (pid : PersonId) (f : Person → Person) (ps : List Person)
    (hnd : (ps.map (·.id)).Nodup) (j : Nat) :
    (updateFirst pid f ps).get? j =
      (ps.get? j).map (fun p => if p.id = pid then f p else p) := by
  induction ps generalizing j with
  | nil => simp [updateFirst]
  | cons q qs ih =>
      by_cases hq : q.id = pid
      · cases j with
        | zero => simp [updateFirst, hq]
        | succ n =>
            simp only [updateFirst, hq, if_pos, List.get?_cons_succ]
            have hpair : (∀ x ∈ qs, ¬ x.id = q.id) ∧
                (qs.map (·.id)).Nodup := by simpa using hnd
            cases hget : qs.get? n with
            | none => simp [hget]
            | some r =>
                have hne : r.id ≠ pid := fun heq =>
                  hpair.1 r (List.get?_mem hget) (heq.trans hq.symm)
                simp [hget, hne]
      · cases j with
        | zero => simp [updateFirst, hq]
        | succ n =>
            have hnd' : (qs.map (·.id)).Nodup := by
              exact ((by simpa using hnd : (∀ x ∈ qs, ¬ x.id = q.id) ∧
                (qs.map (·.id)).Nodup)).2
            simp only [updateFirst, hq, Bool.false_eq_true, if_false,
              List.get?_cons_succ]
            exact ih hnd' n

theorem lookbackApplyDuty_ids (d : Nat) (ps : List Person) (rd : RoleId × Duty) :
    (lookbackApplyDuty d ps rd).map (·.id) = ps.map (·.id) := by
  unfold lookbackApplyDuty
  cases rd.2.personId with
  | none => rfl
  | some pid =>
      exact updateFirst_ids pid _ (fun p => lookbackPersonUpd_id d rd.1 p) ps

theorem lookbackApplyDuty_get? (d : Nat) (ps : List Person) (rd : RoleId × Duty)
    (hnd : (ps.map (·.id)).Nodup) (j : Nat) :
    (lookbackApplyDuty d ps rd).get? j = (ps.get? j).map (dutyUpd d rd) := by
  unfold lookbackApplyDuty
  cases hpid : rd.2.personId with
  | none =>
      cases hget : ps.get? j with
      | none => simp
      | some p => simp [dutyUpd, hpid]
  | some pid =>
      rw [updateFirst_get? pid _ ps hnd j]
      cases hget : ps.get? j with
      | none => simp
      | some p => simp [dutyUpd, hpid]

theorem foldDuties_ids (d : Nat) :
    ∀ (entries : List (RoleId × Duty)) (ps : List Person),
      ((entries.foldl (lookbackApplyDuty d) ps).map (·.id)) = ps.map (·.id) := by
  intro entries
  induction entries with
  | nil => intro ps; rfl
  | cons rd rest ih =>
      intro ps
      simp only [List.foldl_cons]
      rw [ih, lookbackApplyDuty_ids]

theorem foldDuties_get? (d : Nat) :
    ∀ (entries : List (RoleId × Duty)) (ps : List Person),
      (ps.map (·.id)).Nodup → ∀ j,
      (entries.foldl (lookbackApplyDuty d) ps).get? j =
        (ps.get? j).map (fun p => entries.foldl (fun q rd => dutyUpd d rd q) p) := by
  intro entries
  induction entries with
  | nil => intro ps _ j; simp
  | cons rd rest ih =>
      intro ps hnd j
      simp only [List.foldl_cons]
      rw [ih (lookbackApplyDuty d ps rd)
        (by rw [lookbackApplyDuty_ids]; exact hnd) j]
      rw [lookbackApplyDuty_get? d ps rd hnd j]
      cases hget : ps.get? j <;> simp [hget]

theorem lookbackApplyMeeting_ids (ps : List Person) (m : Meeting) :
    (lookbackApplyMeeting ps m).map (·.id) = ps.map (·.id) :=
  foldDuties_ids m.date m.duties ps

theorem lookbackApplyMeeting_get? (ps : List Person) (m : Meeting)
    (hnd : (ps.map (·.id)).Nodup) (j : Nat) :
    (lookbackApplyMeeting ps m).get? j = (ps.get? j).map (meetingUpd m) :=
  foldDuties_get? m.date m.duties ps hnd j

theorem foldMeetings_ids : ∀ (ms : List Meeting) (ps : List Person),
    ((ms.foldl lookbackApplyMeeting ps).map (·.id)) = ps.map (·.id) := by
  intro ms
  induction ms with
  | nil => intro ps; rfl
  | cons m rest ih =>
      intro ps
      simp only [List.foldl_cons]
      rw [ih, lookbackApplyMeeting_ids]

theorem foldMeetings_get? : ∀ (ms : List Meeting) (ps : List Person),
    (ps.map (·.id)).Nodup → ∀ j,
    (ms.foldl lookbackApplyMeeting ps).get? j = (ps.get? j).map (windowUpd ms) := by
  intro ms
  induction ms with
  | nil =>
      intro ps _ j
      cases hget : ps.get? j with
      | none => simp only [List.foldl_nil]; rw [hget]; rfl
      | some p => simp only [List.foldl_nil]; rw [hget]; rfl
  | cons m rest ih =>
      intro ps hnd j
      simp only [List.foldl_cons]
      rw [ih (lookbackApplyMeeting ps m)
        (by rw [lookbackApplyMeeting_ids]; exact hnd) j]
      rw [lookbackApplyMeeting_get? ps m hnd j]
      cases hget : ps.get? j <;> simp [hget, windowUpd, meetingUpd]

theorem entriesUpd_id (d : Nat) : ∀ (entries : List (RoleId × Duty)) (p : Person),
    (entries.foldl (fun q rd => dutyUpd d rd q) p).id = p.id := by
  intro entries
  induction entries with
  | nil => intro p; rfl
  | cons rd rest ih =>
      intro p
      simp only [List.foldl_cons]
      rw [ih, dutyUpd_id]

theorem entriesUpd_count (d : Nat) :
    ∀ (entries : List (RoleId × Duty)) (p : Person) (pid : PersonId),
      p.id = pid → ∀ rid,
      (getA ((entries.foldl (fun q rd => dutyUpd d rd q) p)).assignmentCount
        rid).getD 0 =
      (getA p.assignmentCount rid).getD 0 +
        (entries.filter
          (fun rd => decide (rd.1 = rid ∧ rd.2.personId = some pid))).length := by
  intro entries
  induction entries with
  | nil => intro p pid _ rid; simp
  | cons rd rest ih =>
      intro p pid hpid rid
      simp only [List.foldl_cons, List.filter_cons]
      rw [ih (dutyUpd d rd p) pid (by rw [dutyUpd_id]; exact hpid) rid,
        dutyUpd_count]
      by_cases hc : rd.1 = rid ∧ rd.2.personId = some pid
      · have hc' : rd.1 = rid ∧ rd.2.personId = some p.id :=
          ⟨hc.1, by rw [hpid]; exact hc.2⟩
        have hdec : decide (rd.1 = rid ∧ rd.2.personId = some pid) = true :=
          decide_eq_true hc
        rw [if_pos hc', if_pos hdec, List.length_cons]
        omega
      · have hc' : ¬ (rd.1 = rid ∧ rd.2.personId = some p.id) := by
          rw [hpid]; exact hc
        have hdec : ¬ decide (rd.1 = rid ∧ rd.2.personId = some pid) = true := by
          simpa using hc
        rw [if_neg hc', if_neg hdec]
        omega

theorem entriesUpd_la (d : Nat) :
    ∀ (entries : List (RoleId × Duty)) (p : Person) (pid : PersonId),
      p.id = pid → ∀ rid,
      getA ((entries.foldl (fun q rd => dutyUpd d rd q) p)).lastAssigned rid =
      foldMaxDate (getA p.lastAssigned rid)
        (entries.filterMap
          (fun rd => if rd.1 = rid ∧ rd.2.personId = some pid then some d
                     else none)) := by
  intro entries
  induction entries with
  | nil => intro p pid _ rid; simp [foldMaxDate]
  | cons rd rest ih =>
      intro p pid hpid rid
      simp only [List.foldl_cons, List.filterMap_cons]
      rw [ih (dutyUpd d rd p) pid (by rw [dutyUpd_id]; exact hpid) rid,
        dutyUpd_la]
      by_cases hc : rd.1 = rid ∧ rd.2.personId = some pid
      · have hc' : rd.1 = rid ∧ rd.2.personId = some p.id :=
          ⟨hc.1, by rw [hpid]; exact hc.2⟩
        rw [if_pos hc', if_pos hc]
        dsimp only
        rw [foldMaxDate_cons]
      · have hc' : ¬ (rd.1 = rid ∧ rd.2.personId = some p.id) := by
          rw [hpid]; exact hc
        rw [if_neg hc', if_neg hc]

theorem windowUpd_id : ∀ (ms : List Meeting) (p : Person),
    (windowUpd ms p).id = p.id := by
  intro ms
  induction ms with
  | nil => intro p; rfl
  | cons m rest ih =>
      intro p
      unfold windowUpd at *
      simp only [List.foldl_cons]
      rw [ih]
      exact entriesUpd_id m.date m.duties p

theorem windowUpd_count : ∀ (ms : List Meeting) (p : Person) (pid : PersonId),
    p.id = pid → ∀ rid,
    (getA (windowUpd ms p).assignmentCount rid).getD 0 =
      (getA p.assignmentCount rid).getD 0 + countAssignments ms pid rid := by
  intro ms
  induction ms with
  | nil => intro p pid _ rid; simp [windowUpd, countAssignments]
  | cons m rest ih =>
      intro p pid hpid rid
      unfold windowUpd at *
      simp only [List.foldl_cons]
      rw [ih (meetingUpd m p) pid (by rw [meetingUpd, entriesUpd_id]; exact hpid)
        rid]
      rw [meetingUpd, entriesUpd_count m.date m.duties p pid hpid rid]
      simp [countAssignments]
      omega

theorem windowUpd_la : ∀ (ms : List Meeting) (p : Person) (pid : PersonId),
    p.id = pid → ∀ rid,
    getA (windowUpd ms p).lastAssigned rid =
      foldMaxDate (getA p.lastAssigned rid) (assignDates ms pid rid) := by
  intro ms
  induction ms with
  | nil => intro p pid _ rid; simp [windowUpd, assignDates, foldMaxDate]
  | cons m rest ih =>
      intro p pid hpid rid
      unfold windowUpd at *
      simp only [List.foldl_cons]
      rw [ih (meetingUpd m p) pid (by rw [meetingUpd, entriesUpd_id]; exact hpid)
        rid]
      rw [meetingUpd, entriesUpd_la m.date m.duties p pid hpid rid]
      rw [show assignDates (m :: rest) pid rid =
        (m.duties.filterMap (fun rd =>
          if rd.1 = rid ∧ rd.2.personId = some pid then some m.date else none)) ++
          assignDates rest pid rid from by simp [assignDates]]
      rw [foldMaxDate_append]

/-- The pointwise description of the whole lookback phase. -/
theorem lookbackPhase_get? (people : List Person) (exMeetings : List Meeting)
    (hnd : (people.map (·.id)).Nodup) (j : Nat) :
    (lookbackPhase people exMeetings).get? j =
      (people.get? j).map (fun p =>
        windowUpd (lookbackWindow exMeetings) { p with assignmentCount := [] }) := by
  unfold lookbackPhase
  rw [foldMeetings_get? (lookbackWindow exMeetings)
    (people.map (fun p => { p with assignmentCount := [] }))
    (by simpa [List.map_map, Function.comp] using hnd) j]
  rw [List.get?_map, Option.map_map]
  rfl

/-- C5: after the lookback phase of `generateSchedule` (invoked whenever a
non-empty existing schedule is supplied), every person's per-role
assignment count equals exactly the number of duty entries assigning that
person to that role within the trailing `min 8 n` meetings of the prior
schedule — counts are reset first, so meetings before the window
contribute nothing. -/
theorem c5_lookback_counts_equal_window_counts (people : List Person)
    (exMeetings : List Meeting) (hnd : (people.map (·.id)).Nodup)
    (j : Nat) (p : Person) (hj : people.get? j = some p) :
    ∃ p', (lookbackPhase people exMeetings).get? j = some p' ∧ p'.id = p.id ∧
      ∀ rid, (getA p'.assignmentCount rid).getD 0 =
        countAssignments (lookbackWindow exMeetings) p.id rid := by
  refine ⟨windowUpd (lookbackWindow exMeetings) { p with assignmentCount := [] },
    ?_, ?_, ?_⟩
  · rw [lookbackPhase_get? people exMeetings hnd j, hj]
    rfl
  · rw [windowUpd_id]
  · intro rid
    rw [windowUpd_count (lookbackWindow exMeetings)
      { p with assignmentCount := [] } p.id rfl rid]
    simp [getA]

/-- C5 witness: with 9 prior meetings, only the 2 assignments inside the
trailing 8-meeting window are counted (not the stale carried-in 7, not the
out-of-window assignment at meeting 0). -/
theorem c5_lookback_counts_equal_window_counts_witness :
    (([lbPerson] : List Person).map (·.id)).Nodup ∧
    ([lbPerson] : List Person).get? 0 = some lbPerson ∧
    countAssignments (lookbackWindow c5WitMeetings) "p1" "r1" = 2 ∧
    (∃ p', (lookbackPhase [lbPerson] c5WitMeetings).get? 0 = some p' ∧
      p'.id = lbPerson.id ∧
      ∀ rid, (getA p'.assignmentCount rid).getD 0 =
        countAssignments (lookbackWindow c5WitMeetings) lbPerson.id rid) :=
  ⟨by decide, by decide, by decide,
   c5_lookback_counts_equal_window_counts [lbPerson] c5WitMeetings (by decide)
     0 lbPerson (by decide)⟩

/-- C6 counterexample: the prior schedule assigned `p1` to `r1` at
meeting 0 (date 0), which lies before the lookback window of its 9
meetings; the caller-supplied `lastAssigned` is empty, and after the
lookback phase the person's last-assigned date for `r1` is still `none` —
the recency term (`getDaysSinceLastAssignment`) treats them as never
assigned even though an assignment exists in the full prior history. -/
theorem c6_counterexample_prewindow_assignment_lost :
    ∃ p', (lookbackPhase [c6Person] c6History).get? 0 = some p' ∧
      getA p'.lastAssigned "r1" = none ∧
      getDaysSinceLastAssignment p' "r1" 100 = none ∧
      mostRecentAssignmentAcrossHistory c6History "p1" "r1" = some 0 := by
  decide

/-- C6 (amended): after the lookback phase, a person's per-role
last-assigned date equals the maximum of the caller-supplied last-assigned
date and the assignment dates inside the lookback window; prior history
before the window contributes only through the caller-supplied value, not
by scanning the full prior schedule. -/
theorem c6_lastAssigned_max_of_carried_and_window (people : List Person)
    (exMeetings : List Meeting) (hnd : (people.map (·.id)).Nodup)
    (j : Nat) (p : Person) (hj : people.get? j = some p) :
    ∃ p', (lookbackPhase people exMeetings).get? j = some p' ∧ p'.id = p.id ∧
      ∀ rid, getA p'.lastAssigned rid =
        omaxDate (getA p.lastAssigned rid)
          (maxDate? (assignDates (lookbackWindow exMeetings) p.id rid)) := by
  refine ⟨windowUpd (lookbackWindow exMeetings) { p with assignmentCount := [] },
    ?_, ?_, ?_⟩
  · rw [lookbackPhase_get? people exMeetings hnd j, hj]
    rfl
  · rw [windowUpd_id]
  · intro rid
    rw [windowUpd_la (lookbackWindow exMeetings)
      { p with assignmentCount := [] } p.id rfl rid]
    rw [foldMaxDate_eq_omax]

/-- C6 amended-theorem witness: with a carried-in date 3 and a window
assignment at date 5, the lookback result is 5 (the later of the two). -/
theorem c6_lastAssigned_max_of_carried_and_window_witness :
    (([c6WitPerson] : List Person).map (·.id)).Nodup ∧
    ([c6WitPerson] : List Person).get? 0 = some c6WitPerson ∧
    (∃ p', (lookbackPhase [c6WitPerson] c5WitMeetings).get? 0 = some p' ∧
      p'.id = c6WitPerson.id ∧
      ∀ rid, getA p'.lastAssigned rid =
        omaxDate (getA c6WitPerson.lastAssigned rid)
          (maxDate? (assignDates (lookbackWindow c5WitMeetings)
            c6WitPerson.id rid))) :=
  ⟨by decide, by decide,
   c6_lastAssigned_max_of_carried_and_window [c6WitPerson] c5WitMeetings
     (by decide) 0 c6WitPerson (by decide)⟩

/-- `isPersonAvailable` reads only the availability blocks. -/
theorem isPersonAvailable_congr (p q : Person)
    (hA : p.availability = q.availability) (d : Nat) :
    isPersonAvailable p d = isPersonAvailable q d := by
  unfold isPersonAvailable
  rw [hA]

theorem updateFirst_idAvail (pid : PersonId) (f : Person → Person)
    (hf : ∀ p, (f p).id = p.id ∧ (f p).availability = p.availability) :
    ∀ ps : List Person, idAvail (updateFirst pid f ps) = idAvail ps := by
  intro ps
  induction ps with
  | nil => rfl
  | cons q qs ih =>
      by_cases hq : q.id = pid
      · simp [updateFirst, hq, idAvail, (hf q).1, (hf q).2]
      · simp only [updateFirst, hq, Bool.false_eq_true, if_false]
        simp only [idAvail, List.map_cons] at ih ⊢
        rw [ih]

theorem lookbackApplyDuty_idAvail (d : Nat) (ps : List Person)
    (rd : RoleId × Duty) : idAvail (lookbackApplyDuty d ps rd) = idAvail ps := by
  unfold lookbackApplyDuty
  cases rd.2.personId with
  | none => rfl
  | some pid =>
      dsimp only
      exact updateFirst_idAvail pid (lookbackPersonUpd d rd.1)
        (fun p => ⟨rfl, rfl⟩) ps

theorem foldDuties_idAvail (d : Nat) :
    ∀ (entries : List (RoleId × Duty)) (ps : List Person),
      idAvail (entries.foldl (lookbackApplyDuty d) ps) = idAvail ps := by
  intro entries
  induction entries with
  | nil => intro ps; rfl
  | cons rd rest ih =>
      intro ps
      simp only [List.foldl_cons]
      rw [ih, lookbackApplyDuty_idAvail]

theorem foldMeetings_idAvail : ∀ (ms : List Meeting) (ps : List Person),
    idAvail (ms.foldl lookbackApplyMeeting ps) = idAvail ps := by
  intro ms
  induction ms with
  | nil => intro ps; rfl
  | cons m rest ih =>
      intro ps
      simp only [List.foldl_cons]
      rw [ih]
      exact foldDuties_idAvail m.date m.duties ps

theorem lookbackPhase_idAvail (people : List Person) (ms : List Meeting) :
    idAvail (lookbackPhase people ms) = idAvail people := by
  unfold lookbackPhase
  rw [foldMeetings_idAvail]
  simp [idAvail, List.map_map, Function.comp]

/-- Unpacking membership in the valid-candidate list: the person comes
from the people state, is qualified, available, and not yet assigned in
this meeting. -/
theorem mem_validCandidates (role : Role) (meeting : Meeting)
    (meetingIndex : Nat) (meetings : List Meeting) (sa : SchedAssign)
    (prefs : GroupPrefs) (peopleState : List Person) (sp : ScoredPerson)
    (h : sp ∈ validCandidates role meeting meetingIndex meetings sa prefs
      peopleState) :
    sp.person ∈ peopleState ∧ sp.person.id ∈ role.peopleIds ∧
    isPersonAvailable sp.person meeting.date = true ∧
    some sp.person.id ∉ valuesA ((getA sa meeting.id).getD []) := by
  unfold validCandidates at h
  obtain ⟨hmem, hcond⟩ := List.mem_filter.mp h
  obtain ⟨havail, hnass⟩ := by
    have := hcond
    rw [Bool.and_eq_true] at this
    exact this
  unfold scoredFor at hmem
  obtain ⟨p, hp, hsp⟩ := List.mem_map.mp hmem
  obtain ⟨hpps, hpdec⟩ := List.mem_filter.mp (by
    unfold eligibleFor at hp
    exact hp)
  have hperson : sp.person = p := by rw [← hsp]
  refine ⟨hperson ▸ hpps, ?_, havail, ?_⟩
  · rw [hperson]
    simpa using hpdec
  · rw [Bool.not_eq_true'] at hnass
    intro hmemv
    rw [← decide_eq_true_eq (p := some sp.person.id ∈
      valuesA ((getA sa meeting.id).getD [])) ] at hmemv
    rw [hnass] at hmemv
    cases hmemv

/-- When the valid-candidate list is empty, `assignRoleToMeeting` returns
the null duty and pushes exactly one `unfilled` conflict for this meeting
and role (whichever of its two reporting branches runs). -/
theorem assignRole_null_of_valid_empty (rng : Nat → Nat) (rngIdx : Nat)
    (meeting : Meeting) (role : Role) (peopleState : List Person)
    (sa : SchedAssign) (meetings : List Meeting) (meetingIndex : Nat)
    (prefs : GroupPrefs)
    (hv : validCandidates role meeting meetingIndex meetings sa prefs
      peopleState = []) :
    ∃ c : Conflict,
      assignRoleToMeeting rng rngIdx meeting role peopleState sa meetings
        meetingIndex prefs =
        { duty := createDuty none false true false, newConflicts := [c],
          usedRng := false } ∧
      c.type = "unfilled" ∧ c.meetingId = meeting.id ∧ c.roleId = role.id := by
  unfold assignRoleToMeeting
  by_cases h1 : (eligibleFor role peopleState).length = 0
  · rw [if_pos h1]
    exact ⟨_, rfl, rfl, rfl, rfl⟩
  · rw [if_neg h1]
    have hvlen : (validCandidates role meeting meetingIndex meetings sa prefs
        peopleState).length = 0 := by rw [hv]; rfl
    rw [if_pos hvlen]
    exact ⟨_, rfl, rfl, rfl, rfl⟩

/-- Full characterization of one `assignRoleToMeeting` output: a null duty
comes with a matching `unfilled` conflict; a non-null duty names a
qualified, available person not yet assigned in this meeting, is not
manually assigned and carries no conflict flag. -/
theorem assignRoleToMeeting_spec (rng : Nat → Nat) (rngIdx : Nat)
    (meeting : Meeting) (role : Role) (peopleState : List Person)
    (sa : SchedAssign) (meetings : List Meeting) (meetingIndex : Nat)
    (prefs : GroupPrefs) (out : AssignOut)
    (hout : assignRoleToMeeting rng rngIdx meeting role peopleState sa meetings
      meetingIndex prefs = out) :
    (out.duty.personId = none →
      out.duty.manuallyAssigned = false ∧ out.duty.hasConflict = true ∧
      ∃ c ∈ out.newConflicts,
        c.type = "unfilled" ∧ c.meetingId = meeting.id ∧ c.roleId = role.id) ∧
    (∀ pid, out.duty.personId = some pid →
      out.duty.manuallyAssigned = false ∧ out.duty.hasConflict = false ∧
      pid ∈ role.peopleIds ∧
      (∃ p ∈ peopleState, p.id = pid ∧ isPersonAvailable p meeting.date = true) ∧
      some pid ∉ valuesA ((getA sa meeting.id).getD [])) := by
  by_cases hv : validCandidates role meeting meetingIndex meetings sa prefs
    peopleState = []
  · obtain ⟨c, hout', hct, hcm, hcr⟩ := assignRole_null_of_valid_empty rng rngIdx
      meeting role peopleState sa meetings meetingIndex prefs hv
    rw [hout'] at hout
    subst hout
    constructor
    · intro _
      exact ⟨rfl, rfl, c, List.mem_singleton_self c, hct, hcm, hcr⟩
    · intro pid hpid
      simp [createDuty] at hpid
  · obtain ⟨sp, hmem, hout', _⟩ := assignRole_picks_valid rng rngIdx meeting role
      peopleState sa meetings meetingIndex prefs hv
    rw [hout'] at hout
    subst hout
    constructor
    · intro h
      simp [createDuty] at h
    · intro pid hpid
      have hpid' : sp.person.id = pid := by simpa [createDuty] using hpid
      obtain ⟨hps, hqual, havail, hnass⟩ := mem_validCandidates role meeting
        meetingIndex meetings sa prefs peopleState sp hmem
      exact ⟨rfl, rfl, hpid' ▸ hqual,
        ⟨sp.person, hps, hpid', havail⟩, hpid' ▸ hnass⟩

theorem DutyOk_mono {PA : List (PersonId × List AvailBlock)}
    {conflicts conflicts' : List Conflict} {mId mDate : Nat} {role : Role}
    {d : Duty} (hpre : conflicts <+: conflicts')
    (h : DutyOk PA conflicts mId mDate role d) :
    DutyOk PA conflicts' mId mDate role d := by
  obtain ⟨h1, h2⟩ := h
  refine ⟨fun hn => ?_, h2⟩
  obtain ⟨hma, hc, c, hcmem, hcp⟩ := h1 hn
  exact ⟨hma, hc, c, hpre.subset hcmem, hcp⟩

/-- The person-state write of the role loop (an optional `updateFirst`)
preserves the (id, availability) pairs. -/
theorem idAvail_matchUpdate (opid : Option PersonId)
    (f : PersonId → Person → Person)
    (hf : ∀ pid p, (f pid p).id = p.id ∧ (f pid p).availability = p.availability)
    (ps : List Person) :
    idAvail (match opid with
      | some pid => updateFirst pid (f pid) ps
      | none => ps) = idAvail ps := by
  cases opid with
  | none => rfl
  | some pid => exact updateFirst_idAvail pid (f pid) (hf pid) ps

/-- One step of the role loop preserves the invariant. -/
theorem processRole_inv (rng : Nat → Nat) (midweekDay : String)
    (meetings0 : List Meeting) (i : Nat)
    (PA : List (PersonId × List AvailBlock)) (m0 : Meeting)
    (processed : List Role) (m : Meeting) (st : GenState) (role : Role)
    (hia : idAvail st.peopleState = PA)
    (hnotin : role.id ∉ processed.map (·.id))
    (hinv : MeetingInv PA m0 processed m st) :
    MeetingInv PA m0 (processed ++ [role])
      (processRole rng midweekDay meetings0 i (m, st) role).1
      (processRole rng midweekDay meetings0 i (m, st) role).2 ∧
    idAvail (processRole rng midweekDay meetings0 i (m, st) role).2.peopleState
      = PA ∧
    st.conflicts <+: (processRole rng midweekDay meetings0 i (m, st) role).2.conflicts := by
  obtain ⟨hfields, amap, hamap, hproc, hunproc, hdist⟩ := hinv
  have hmid : m.id = m0.id := hfields.1
  have hmdate : m.date = m0.date := hfields.2.1
  set out := assignRoleToMeeting rng st.rngIdx m role st.peopleState
    st.schedAssign meetings0 i st.groupPrefs with hout
  have hspec := assignRoleToMeeting_spec rng st.rngIdx m role st.peopleState
    st.schedAssign meetings0 i st.groupPrefs out hout.symm
  have hamap0 : (getA st.schedAssign m.id).getD [] = amap := by
    rw [hmid, hamap]
    rfl
  have hduties : (processRole rng midweekDay meetings0 i (m, st) role).1.duties =
      setA m.duties role.id out.duty := rfl
  have hsa : (processRole rng midweekDay meetings0 i (m, st) role).2.schedAssign =
      setA st.schedAssign m.id
        (setA ((getA st.schedAssign m.id).getD []) role.id out.duty.personId) :=
    rfl
  have hconf : (processRole rng midweekDay meetings0 i (m, st) role).2.conflicts =
      st.conflicts ++ out.newConflicts := rfl
  have hpre : st.conflicts <+:
      (processRole rng midweekDay meetings0 i (m, st) role).2.conflicts :=
    ⟨out.newConflicts, hconf.symm⟩
  have hidav : idAvail
      (processRole rng midweekDay meetings0 i (m, st) role).2.peopleState =
      idAvail st.peopleState :=
    idAvail_matchUpdate out.duty.personId (fun _ person =>
      { person with
        lastAssigned := setA person.lastAssigned role.id m.date,
        assignmentCount := setA person.assignmentCount role.id
          ((getA person.assignmentCount role.id).getD 0 + 1) })
      (fun _ _ => ⟨rfl, rfl⟩) st.peopleState
  refine ⟨⟨?_, ?_⟩, by rw [hidav, hia], hpre⟩
  · exact hfields
  · refine ⟨setA amap role.id out.duty.personId, ?_, ?_, ?_, ?_⟩
    · rw [hsa, hamap0, ← hmid]
      exact getA_setA_self st.schedAssign m.id _
    · intro role' hr'
      rcases List.mem_append.mp hr' with hold | hnew
      · have hne : role'.id ≠ role.id := by
          intro he
          exact hnotin (he ▸ List.mem_map_of_mem _ hold)
        obtain ⟨d, hd, had, hok⟩ := hproc role' hold
        refine ⟨d, ?_, ?_, DutyOk_mono hpre hok⟩
        · rw [hduties, getA_setA_ne m.duties role.id role'.id out.duty hne.symm]
          exact hd
        · rw [getA_setA_ne amap role.id role'.id out.duty.personId hne.symm]
          exact had
      · have heq : role' = role := List.mem_singleton.mp hnew
        subst heq
        refine ⟨out.duty, ?_, ?_, ?_, ?_⟩
        · rw [hduties]
          exact getA_setA_self m.duties role'.id out.duty
        · exact getA_setA_self amap role'.id out.duty.personId
        · intro hn
          obtain ⟨hma, hc, c, hcm, hct, hcmid, hcrid⟩ := hspec.1 hn
          exact ⟨hma, hc, c, by rw [hconf]; exact List.mem_append_right _ hcm,
            hct, by rw [← hmid]; exact hcmid, hcrid⟩
        · intro pid hp
          obtain ⟨hma, hc, hqual, ⟨p, hpmem, hpide, hpavail⟩, hnass⟩ :=
            hspec.2 pid hp
          refine ⟨hma, hc, hqual, (p.id, p.availability), ?_, hpide, ?_⟩
          · rw [← hia]
            exact List.mem_map_of_mem _ hpmem
          · rw [show isPersonAvailable (availPerson (p.id, p.availability)) m0.date
              = isPersonAvailable p m0.date from
              isPersonAvailable_congr _ _ rfl m0.date]
            rw [← hmdate]
            exact hpavail
    · intro rid hrid
      have h1 : rid ∉ processed.map (·.id) ∧ rid ≠ role.id := by
        simpa [not_or] using hrid
      obtain ⟨hu1, hu2⟩ := hunproc rid h1.1
      constructor
      · rw [hduties, getA_setA_ne m.duties role.id rid out.duty
          (fun he => h1.2 he.symm)]
        exact hu1
      · rw [getA_setA_ne amap role.id rid out.duty.personId
          (fun he => h1.2 he.symm)]
        exact hu2
    · intro rid1 rid2 pid hne12 hg1 hg2
      by_cases e1 : rid1 = role.id <;> by_cases e2 : rid2 = role.id
      · exact hne12 (e1.trans e2.symm)
      · rw [e1, getA_setA_self amap role.id out.duty.personId] at hg1
        have hdutyid : out.duty.personId = some pid := by
          injection hg1
        rw [getA_setA_ne amap role.id rid2 out.duty.personId
          (fun he => e2 he.symm)] at hg2
        have hval : some pid ∈ valuesA amap := getA_mem_values amap rid2 _ hg2
        obtain ⟨_, _, _, _, hnass⟩ := hspec.2 pid hdutyid
        rw [hamap0] at hnass
        exact hnass hval
      · rw [e2, getA_setA_self amap role.id out.duty.personId] at hg2
        have hdutyid : out.duty.personId = some pid := by
          injection hg2
        rw [getA_setA_ne amap role.id rid1 out.duty.personId
          (fun he => e1 he.symm)] at hg1
        have hval : some pid ∈ valuesA amap := getA_mem_values amap rid1 _ hg1
        obtain ⟨_, _, _, _, hnass⟩ := hspec.2 pid hdutyid
        rw [hamap0] at hnass
        exact hnass hval
      · rw [getA_setA_ne amap role.id rid1 out.duty.personId
          (fun he => e1 he.symm)] at hg1
        rw [getA_setA_ne amap role.id rid2 out.duty.personId
          (fun he => e2 he.symm)] at hg2
        exact hdist rid1 rid2 pid hne12 hg1 hg2

/-- Folding the role loop over any suffix of roles preserves the
invariant. -/
theorem processRoles_fold_inv (rng : Nat → Nat) (midweekDay : String)
    (meetings0 : List Meeting) (i : Nat)
    (PA : List (PersonId × List AvailBlock)) (m0 : Meeting) :
    ∀ (remaining processed : List Role) (m : Meeting) (st : GenState),
      ((processed ++ remaining).map (·.id)).Nodup →
      idAvail st.peopleState = PA →
      MeetingInv PA m0 processed m st →
      MeetingInv PA m0 (processed ++ remaining)
        (remaining.foldl (processRole rng midweekDay meetings0 i) (m, st)).1
        (remaining.foldl (processRole rng midweekDay meetings0 i) (m, st)).2 ∧
      idAvail (remaining.foldl (processRole rng midweekDay meetings0 i)
        (m, st)).2.peopleState = PA ∧
      st.conflicts <+: (remaining.foldl (processRole rng midweekDay meetings0 i)
        (m, st)).2.conflicts := by
  intro remaining
  induction remaining with
  | nil =>
      intro processed m st _ hia hinv
      refine ⟨?_, hia, List.prefix_refl _⟩
      simpa using hinv
  | cons role rest ih =>
      intro processed m st hnd hia hinv
      have hnotin : role.id ∉ processed.map (·.id) := by
        intro hmem
        have hnd' : (processed.map (·.id) ++
            (role.id :: rest.map (·.id))).Nodup := by
          simpa using hnd
        exact (List.nodup_append.mp hnd').2.2 hmem (List.mem_cons_self _ _)
      obtain ⟨hinv1, hia1, hpre1⟩ := processRole_inv rng midweekDay meetings0 i
        PA m0 processed m st role hia hnotin hinv
      have hnd2 : (((processed ++ [role]) ++ rest).map (·.id)).Nodup := by
        simpa [List.append_assoc] using hnd
      obtain ⟨hinv2, hia2, hpre2⟩ := ih (processed ++ [role])
        (processRole rng midweekDay meetings0 i (m, st) role).1
        (processRole rng midweekDay meetings0 i (m, st) role).2
        hnd2 hia1 hinv1
      refine ⟨?_, ?_, ?_⟩
      · rw [show processed ++ role :: rest = (processed ++ [role]) ++ rest by
          simp]
        simpa [List.foldl_cons] using hinv2
      · simpa [List.foldl_cons] using hia2
      · have := hpre1.trans hpre2
        simpa [List.foldl_cons] using this

/-- What one whole meeting iteration guarantees. -/
theorem processMeeting_spec (rng : Nat → Nat) (roles : List Role)
    (midweekDay : String) (meetings0 : List Meeting) (i : Nat)
    (PA : List (PersonId × List AvailBlock)) (m0 : Meeting) (st : GenState)
    (hnd : (roles.map (·.id)).Nodup)
    (hia : idAvail st.peopleState = PA) :
    MeetingFieldsEq m0
      (processMeeting rng roles midweekDay meetings0 i m0 st).1 ∧
    idAvail (processMeeting rng roles midweekDay meetings0 i m0
      st).2.peopleState = PA ∧
    st.conflicts <+:
      (processMeeting rng roles midweekDay meetings0 i m0 st).2.conflicts ∧
    (∀ role ∈ roles, ∃ d,
      getA (processMeeting rng roles midweekDay meetings0 i m0 st).1.duties
        role.id = some d ∧
      DutyOk PA (processMeeting rng roles midweekDay meetings0 i m0
        st).2.conflicts m0.id m0.date role d) ∧
    (∀ rid, rid ∉ roles.map (·.id) →
      getA (processMeeting rng roles midweekDay meetings0 i m0 st).1.duties rid
        = getA m0.duties rid) ∧
    (∀ r1 ∈ roles, ∀ r2 ∈ roles, r1.id ≠ r2.id → ∀ d1 d2 pid,
      getA (processMeeting rng roles midweekDay meetings0 i m0 st).1.duties
        r1.id = some d1 →
      getA (processMeeting rng roles midweekDay meetings0 i m0 st).1.duties
        r2.id = some d2 →
      d1.personId = some pid → d2.personId = some pid → False) := by
  have hinv0 : MeetingInv PA m0 []
      m0 { st with schedAssign := setA st.schedAssign m0.id [] } := by
    refine ⟨⟨rfl, rfl, rfl, rfl, rfl⟩, [], ?_, ?_, ?_, ?_⟩
    · exact getA_setA_self st.schedAssign m0.id []
    · intro role hrole
      cases hrole
    · intro rid _
      exact ⟨rfl, rfl⟩
    · intro rid1 rid2 pid _ hg1 _
      cases hg1
  have hndsorted : ((([] : List Role) ++ sortBy roleLenLe roles).map
      (·.id)).Nodup := by
    simp only [List.nil_append]
    exact (((sortBy_perm roleLenLe roles).map (·.id)).nodup_iff).mpr hnd
  obtain ⟨hinv, hiaF, hpreF⟩ := processRoles_fold_inv rng midweekDay meetings0 i
    PA m0 (sortBy roleLenLe roles) [] m0
    { st with schedAssign := setA st.schedAssign m0.id [] }
    hndsorted hia hinv0
  rw [List.nil_append] at hinv
  obtain ⟨hfieldsI, amap, hamap, hprocI, hunprocI, hdistI⟩ := hinv
  have hpm : processMeeting rng roles midweekDay meetings0 i m0 st =
      (sortBy roleLenLe roles).foldl (processRole rng midweekDay meetings0 i)
        (m0, { st with schedAssign := setA st.schedAssign m0.id [] }) := rfl
  rw [hpm]
  refine ⟨hfieldsI, hiaF, hpreF, ?_, ?_, ?_⟩
  · intro role hrole
    obtain ⟨d, hd, _, hok⟩ := hprocI role
      ((mem_sortBy roleLenLe role roles).mpr hrole)
    exact ⟨d, hd, hok⟩
  · intro rid hrid
    have hrid' : rid ∉ (sortBy roleLenLe roles).map (·.id) := by
      intro hmem
      obtain ⟨r, hrmem, hrid2⟩ := List.mem_map.mp hmem
      apply hrid
      rw [← hrid2]
      exact List.mem_map_of_mem _ ((mem_sortBy roleLenLe r roles).mp hrmem)
    exact (hunprocI rid hrid').1
  · intro r1 hr1 r2 hr2 hne d1 d2 pid hd1 hd2 hp1 hp2
    obtain ⟨d1', hd1', ha1, _⟩ := hprocI r1 ((mem_sortBy roleLenLe r1 roles).mpr hr1)
    obtain ⟨d2', hd2', ha2, _⟩ := hprocI r2 ((mem_sortBy roleLenLe r2 roles).mpr hr2)
    rw [hd1'] at hd1
    rw [hd2'] at hd2
    have e1 : d1' = d1 := by injection hd1
    have e2 : d2' = d2 := by injection hd2
    rw [e1, hp1] at ha1
    rw [e2, hp2] at ha2
    exact hdistI r1.id r2.id pid hne ha1 ha2

/-- What the whole meeting loop guarantees, meeting by meeting. -/
theorem processMeetings_spec (rng : Nat → Nat) (roles : List Role)
    (midweekDay : String) (meetings0 : List Meeting)
    (PA : List (PersonId × List AvailBlock))
    (hnd : (roles.map (·.id)).Nodup) :
    ∀ (ms : List Meeting) (i : Nat) (st : GenState),
      idAvail st.peopleState = PA →
      idAvail (processMeetings rng roles midweekDay meetings0 i ms
        st).2.peopleState = PA ∧
      st.conflicts <+: (processMeetings rng roles midweekDay meetings0 i ms
        st).2.conflicts ∧
      (processMeetings rng roles midweekDay meetings0 i ms st).1.length =
        ms.length ∧
      (∀ j m0, ms.get? j = some m0 →
        ∃ m', (processMeetings rng roles midweekDay meetings0 i ms st).1.get? j
            = some m' ∧
          MeetingFieldsEq m0 m' ∧
          (∀ role ∈ roles, ∃ d, getA m'.duties role.id = some d ∧
            DutyOk PA (processMeetings rng roles midweekDay meetings0 i ms
              st).2.conflicts m0.id m0.date role d) ∧
          (∀ rid, rid ∉ roles.map (·.id) →
            getA m'.duties rid = getA m0.duties rid) ∧
          (∀ r1 ∈ roles, ∀ r2 ∈ roles, r1.id ≠ r2.id → ∀ d1 d2 pid,
            getA m'.duties r1.id = some d1 → getA m'.duties r2.id = some d2 →
            d1.personId = some pid → d2.personId = some pid → False)) := by
  intro ms
  induction ms with
  | nil =>
      intro i st hia
      refine ⟨hia, List.prefix_refl _, rfl, ?_⟩
      intro j m0 hj
      simp at hj
  | cons m0 rest ih =>
      intro i st hia
      obtain ⟨hfE, hiaM, hpreM, hrolesM, hunpM, hdistM⟩ :=
        processMeeting_spec rng roles midweekDay meetings0 i PA m0 st hnd hia
      obtain ⟨hia2, hpre2, hlen2, hmain2⟩ := ih (i + 1)
        (processMeeting rng roles midweekDay meetings0 i m0 st).2 hiaM
      have hpm : processMeetings rng roles midweekDay meetings0 i (m0 :: rest) st
          = ((processMeeting rng roles midweekDay meetings0 i m0 st).1 ::
              (processMeetings rng roles midweekDay meetings0 (i + 1) rest
                (processMeeting rng roles midweekDay meetings0 i m0 st).2).1,
             (processMeetings rng roles midweekDay meetings0 (i + 1) rest
               (processMeeting rng roles midweekDay meetings0 i m0 st).2).2) :=
        rfl
      rw [hpm]
      refine ⟨hia2, hpreM.trans hpre2, by simpa using hlen2, ?_⟩
      intro j mj hj
      cases j with
      | zero =>
          simp only [List.get?_cons_zero, Option.some.injEq] at hj
          subst hj
          refine ⟨(processMeeting rng roles midweekDay meetings0 i m0 st).1,
            rfl, hfE, ?_, hunpM, hdistM⟩
          intro role hrole
          obtain ⟨d, hd, hok⟩ := hrolesM role hrole
          exact ⟨d, hd, DutyOk_mono hpre2 hok⟩
      | succ n =>
          simp only [List.get?_cons_succ] at hj
          exact hmain2 n mj hj

/-- `initialPeopleState` keeps every person's id and availability. -/
theorem initialPeopleState_idAvail (people : List Person)
    (existingSchedule : Option Schedule) :
    idAvail (initialPeopleState people existingSchedule) = idAvail people := by
  unfold initialPeopleState
  cases existingSchedule with
  | none => rfl
  | some ex =>
      dsimp only
      by_cases h : ex.meetings.length > 0
      · rw [if_pos h]
        exact lookbackPhase_idAvail people ex.meetings
      · rw [if_neg h]

/-- Destructuring a successful `generateSchedule` call into its
date-generation and meeting-loop parts. -/
theorem generateSchedule_eq (rng : Nat → Nat) (startDate : Nat) (weeks : Nat)
    (people : List Person) (roles : List Role) (cancelledDates : List Nat)
    (existingSchedule : Option Schedule) (settings : Option Settings)
    (omittedDates : List OmittedDate) (specialMeetings : List SpecialMeeting)
    (sched : Schedule)
    (hgen : generateSchedule rng startDate weeks people roles cancelledDates
      existingSchedule settings omittedDates specialMeetings = some sched) :
    ∃ mds, generateMeetingDates startDate weeks cancelledDates settings
        omittedDates specialMeetings = some mds ∧
      sched.meetings = (processMeetings rng roles (midweekNameOf settings)
        (buildMeetings mds) 0 (buildMeetings mds)
        { peopleState := initialPeopleState people existingSchedule,
          schedAssign := [], groupPrefs := [], conflicts := [],
          rngIdx := 0 }).1 ∧
      sched.conflicts = (processMeetings rng roles (midweekNameOf settings)
        (buildMeetings mds) 0 (buildMeetings mds)
        { peopleState := initialPeopleState people existingSchedule,
          schedAssign := [], groupPrefs := [], conflicts := [],
          rngIdx := 0 }).2.conflicts := by
  unfold generateSchedule at hgen
  cases hmds : generateMeetingDates startDate weeks cancelledDates settings
    omittedDates specialMeetings with
  | none =>
      rw [hmds] at hgen
      simp at hgen
  | some mds =>
      rw [hmds] at hgen
      simp only [Option.some.injEq] at hgen
      subst hgen
      exact ⟨mds, rfl, rfl, rfl⟩

/-- List membership gives an index. -/
theorem get?_of_mem {α : Type} {a : α} {l : List α} (h : a ∈ l) :
    ∃ j, l.get? j = some a := by
  induction l with
  | nil => cases h
  | cons x xs ih =>
      rcases List.mem_cons.mp h with h1 | h1
      · exact ⟨0, by simp [h1]⟩
      · obtain ⟨j, hj⟩ := ih h1
        exact ⟨j + 1, by simpa using hj⟩

/-- The meeting built from the descriptor at index `j`. -/
theorem buildMeetings_get? (mds : List MeetingDate) (j : Nat) :
    (buildMeetings mds).get? j = (mds.get? j).map (fun md =>
      { id := j, date := md.date, day := md.day, type := md.type,
        comment := md.comment, duties := md.duties }) := by
  unfold buildMeetings
  rw [List.get?_map, List.get?_enum]
  cases mds.get? j with
  | none => rfl
  | some md => rfl

/-- The per-meeting guarantees of a successful `generateSchedule` call,
indexed against the occurrence descriptors it was generated from. -/
theorem generateSchedule_meetings_spec (rng : Nat → Nat) (startDate : Nat)
    (weeks : Nat) (people : List Person) (roles : List Role)
    (cancelledDates : List Nat) (existingSchedule : Option Schedule)
    (settings : Option Settings) (omittedDates : List OmittedDate)
    (specialMeetings : List SpecialMeeting) (sched : Schedule)
    (hgen : generateSchedule rng startDate weeks people roles cancelledDates
      existingSchedule settings omittedDates specialMeetings = some sched)
    (hnd : (roles.map (·.id)).Nodup) :
    ∃ mds, generateMeetingDates startDate weeks cancelledDates settings
        omittedDates specialMeetings = some mds ∧
      sched.meetings.length = mds.length ∧
      ∀ j m, sched.meetings.get? j = some m → ∃ md, mds.get? j = some md ∧
        m.date = md.date ∧
        (∀ role ∈ roles, ∃ d, getA m.duties role.id = some d ∧
          DutyOk (idAvail people) sched.conflicts m.id m.date role d) ∧
        (∀ rid, rid ∉ roles.map (·.id) →
          getA m.duties rid = getA md.duties rid) ∧
        (∀ r1 ∈ roles, ∀ r2 ∈ roles, r1.id ≠ r2.id → ∀ d1 d2 pid,
          getA m.duties r1.id = some d1 → getA m.duties r2.id = some d2 →
          d1.personId = some pid → d2.personId = some pid → False) := by
  obtain ⟨mds, hmds, hms, hcf⟩ := generateSchedule_eq rng startDate weeks people
    roles cancelledDates existingSchedule settings omittedDates specialMeetings
    sched hgen
  obtain ⟨hiaF, hpre, hlen, hmain⟩ := processMeetings_spec rng roles
    (midweekNameOf settings) (buildMeetings mds) (idAvail people) hnd
    (buildMeetings mds) 0
    { peopleState := initialPeopleState people existingSchedule,
      schedAssign := [], groupPrefs := [], conflicts := [], rngIdx := 0 }
    (initialPeopleState_idAvail people existingSchedule)
  have hblen : (buildMeetings mds).length = mds.length := by
    simp [buildMeetings]
  refine ⟨mds, hmds, by rw [hms, hlen, hblen], ?_⟩
  intro j m hm
  rw [hms] at hm
  have hjlt : j < mds.length := by
    obtain ⟨h, _⟩ := List.get?_eq_some.mp hm
    rw [hlen, hblen] at h
    exact h
  cases hmd : mds.get? j with
  | none =>
      exfalso
      have := List.get?_eq_none.mp hmd
      omega
  | some md =>
      have hm0 : (buildMeetings mds).get? j = some
          { id := j, date := md.date, day := md.day, type := md.type,
            comment := md.comment, duties := md.duties } := by
        rw [buildMeetings_get?, hmd]
        rfl
      obtain ⟨m', hm', hfE, hroles, hunp, hdist⟩ := hmain j _ hm0
      have hmm : m' = m := by
        rw [hm'] at hm
        injection hm
      subst hmm
      refine ⟨md, rfl, hfE.2.1, ?_, ?_, hdist⟩
      · intro role hrole
        obtain ⟨d, hd, hok⟩ := hroles role hrole
        refine ⟨d, hd, ?_⟩
        rw [hcf, hfE.1, hfE.2.1]
        exact hok
      · intro rid hrid
        exact hunp rid hrid

/-- C2: in every generated schedule, the duty recorded for each meeting
and each supplied role is either the null person with the conflict flag
set and a matching `unfilled` Conflict accumulated in the schedule, or a
person who is not flagged manually-assigned, carries no conflict flag, is
in the role's qualified list and is available (per `isPersonAvailable`)
on the meeting's date. -/
theorem c2_duty_null_with_conflict_or_qualified_available (rng : Nat → Nat)
    (startDate : Nat) (weeks : Nat) (people : List Person) (roles : List Role)
    (cancelledDates : List Nat) (existingSchedule : Option Schedule)
    (settings : Option Settings) (omittedDates : List OmittedDate)
    (specialMeetings : List SpecialMeeting) (sched : Schedule)
    (hgen : generateSchedule rng startDate weeks people roles cancelledDates
      existingSchedule settings omittedDates specialMeetings = some sched)
    (hnd : (roles.map (·.id)).Nodup) :
    ∀ m ∈ sched.meetings, ∀ role ∈ roles,
      ∃ d, getA m.duties role.id = some d ∧
        ((d.personId = none ∧ d.hasConflict = true ∧
          ∃ c ∈ sched.conflicts,
            c.type = "unfilled" ∧ c.meetingId = m.id ∧ c.roleId = role.id) ∨
         (∃ pid, d.personId = some pid ∧ d.manuallyAssigned = false ∧
          d.hasConflict = false ∧ pid ∈ role.peopleIds ∧
          ∃ q ∈ people, q.id = pid ∧ isPersonAvailable q m.date = true)) := by
  obtain ⟨mds, hmds, hlen, hmain⟩ := generateSchedule_meetings_spec rng startDate
    weeks people roles cancelledDates existingSchedule settings omittedDates
    specialMeetings sched hgen hnd
  intro m hm role hrole
  obtain ⟨j, hj⟩ := get?_of_mem hm
  obtain ⟨md, hmd, hdate, hroles, _, _⟩ := hmain j m hj
  obtain ⟨d, hd, hok⟩ := hroles role hrole
  refine ⟨d, hd, ?_⟩
  cases hdp : d.personId with
  | none =>
      obtain ⟨hma, hc, c, hcmem, hcp⟩ := hok.1 hdp
      exact Or.inl ⟨rfl, hc, c, hcmem, hcp⟩
  | some pid =>
      obtain ⟨hma, hc, hqual, pr, hprmem, hpr1, hpravail⟩ := hok.2 pid hdp
      obtain ⟨q, hq, hqe⟩ := List.mem_map.mp hprmem
      have hqid : q.id = pid := by
        rw [← hqe] at hpr1
        exact hpr1
      have hqavail : isPersonAvailable q m.date = true := by
        rw [← isPersonAvailable_congr (availPerson pr) q
          (by rw [← hqe]; rfl) m.date]
        exact hpravail
      exact Or.inr ⟨pid, rfl, hma, hc, hqual, q, hq, hqid, hqavail⟩

/-- C1 (amended): in every generated schedule, no meeting records the same
non-null person for two distinct roles *of the supplied roles list* (the
engine's double-booking check covers exactly the duties it writes; duties
pre-seeded by special-occurrence records for role ids outside the supplied
list are not consulted and can still collide — see the counterexample). -/
theorem c1_no_duplicate_person_among_supplied_roles (rng : Nat → Nat)
    (startDate : Nat) (weeks : Nat) (people : List Person) (roles : List Role)
    (cancelledDates : List Nat) (existingSchedule : Option Schedule)
    (settings : Option Settings) (omittedDates : List OmittedDate)
    (specialMeetings : List SpecialMeeting) (sched : Schedule)
    (hgen : generateSchedule rng startDate weeks people roles cancelledDates
      existingSchedule settings omittedDates specialMeetings = some sched)
    (hnd : (roles.map (·.id)).Nodup) :
    ∀ m ∈ sched.meetings, ∀ r1 ∈ roles, ∀ r2 ∈ roles, r1.id ≠ r2.id →
      sharesPerson m r1 r2 = false := by
  obtain ⟨mds, hmds, hlen, hmain⟩ := generateSchedule_meetings_spec rng startDate
    weeks people roles cancelledDates existingSchedule settings omittedDates
    specialMeetings sched hgen hnd
  intro m hm r1 hr1 r2 hr2 hne
  obtain ⟨j, hj⟩ := get?_of_mem hm
  obtain ⟨md, hmd, hdate, _, _, hdist⟩ := hmain j m hj
  unfold sharesPerson
  cases h1 : getA m.duties r1.id with
  | none => rfl
  | some d1 =>
      cases h2 : getA m.duties r2.id with
      | none => rfl
      | some d2 =>
          dsimp only
          cases hp1 : d1.personId with
          | none => rfl
          | some p1 =>
              cases hp2 : d2.personId with
              | none => rfl
              | some p2 =>
                  rw [decide_eq_false_iff_not]
                  intro he
                  exact hdist r1 hr1 r2 hr2 hne d1 d2 p1 h1 h2 hp1
                    (by rw [hp2, he])

/-- C7 (amended): `generateSchedule` performs no structural validation and
never rejects a call; a role with zero eligible people (no supplied person
is in its qualified list) produces, for every generated meeting, a
null-person duty with the conflict flag and one `unfilled` Conflict record
— instead of a rejected call. -/
theorem c7_zero_eligible_role_yields_per_meeting_conflicts (rng : Nat → Nat)
    (startDate : Nat) (weeks : Nat) (people : List Person) (roles : List Role)
    (cancelledDates : List Nat) (existingSchedule : Option Schedule)
    (settings : Option Settings) (omittedDates : List OmittedDate)
    (specialMeetings : List SpecialMeeting) (sched : Schedule) (role : Role)
    (hgen : generateSchedule rng startDate weeks people roles cancelledDates
      existingSchedule settings omittedDates specialMeetings = some sched)
    (hnd : (roles.map (·.id)).Nodup)
    (hrole : role ∈ roles)
    (hzero : ∀ p ∈ people, p.id ∉ role.peopleIds) :
    ∀ m ∈ sched.meetings, ∃ d, getA m.duties role.id = some d ∧
      d.personId = none ∧ d.hasConflict = true ∧
      ∃ c ∈ sched.conflicts,
        c.type = "unfilled" ∧ c.meetingId = m.id ∧ c.roleId = role.id := by
  obtain ⟨mds, hmds, hlen, hmain⟩ := generateSchedule_meetings_spec rng startDate
    weeks people roles cancelledDates existingSchedule settings omittedDates
    specialMeetings sched hgen hnd
  intro m hm
  obtain ⟨j, hj⟩ := get?_of_mem hm
  obtain ⟨md, hmd, hdate, hroles, _, _⟩ := hmain j m hj
  obtain ⟨d, hd, hok⟩ := hroles role hrole
  cases hdp : d.personId with
  | none =>
      obtain ⟨hma, hc, c, hcmem, hcp⟩ := hok.1 hdp
      exact ⟨d, hd, hdp, hc, c, hcmem, hcp⟩
  | some pid =>
      exfalso
      obtain ⟨_, _, hqual, pr, hprmem, hpr1, _⟩ := hok.2 pid hdp
      obtain ⟨q, hq, hqe⟩ := List.mem_map.mp hprmem
      have hqid : q.id = pid := by
        rw [← hqe] at hpr1
        exact hpr1
      exact hzero q hq (hqid ▸ hqual)

/-- C10: for every meeting of a generated schedule (special occurrences
with pre-seeded duties included) and every role in the supplied list, the
recorded duty is engine-produced (never flagged manually-assigned, and
either a null duty with an `unfilled` conflict or a qualified available
person), overwriting any pre-seeded duty for that role id; pre-seeded
duties survive in the output exactly for role ids absent from the
supplied roles list. -/
theorem c10_engine_overwrites_supplied_roles_preserves_other_preseeds
    (rng : Nat → Nat) (startDate : Nat) (weeks : Nat) (people : List Person)
    (roles : List Role) (cancelledDates : List Nat)
    (existingSchedule : Option Schedule) (settings : Option Settings)
    (omittedDates : List OmittedDate) (specialMeetings : List SpecialMeeting)
    (sched : Schedule)
    (hgen : generateSchedule rng startDate weeks people roles cancelledDates
      existingSchedule settings omittedDates specialMeetings = some sched)
    (hnd : (roles.map (·.id)).Nodup) :
    ∃ mds, generateMeetingDates startDate weeks cancelledDates settings
        omittedDates specialMeetings = some mds ∧
      sched.meetings.length = mds.length ∧
      ∀ j m, sched.meetings.get? j = some m → ∃ md, mds.get? j = some md ∧
        (∀ rid, rid ∉ roles.map (·.id) →
          getA m.duties rid = getA md.duties rid) ∧
        (∀ role ∈ roles, ∃ d, getA m.duties role.id = some d ∧
          d.manuallyAssigned = false ∧
          ((d.personId = none ∧ d.hasConflict = true) ∨
           (∃ pid, d.personId = some pid ∧ d.hasConflict = false ∧
            pid ∈ role.peopleIds ∧
            ∃ q ∈ people, q.id = pid ∧ isPersonAvailable q m.date = true))) := by
  obtain ⟨mds, hmds, hlen, hmain⟩ := generateSchedule_meetings_spec rng startDate
    weeks people roles cancelledDates existingSchedule settings omittedDates
    specialMeetings sched hgen hnd
  refine ⟨mds, hmds, hlen, ?_⟩
  intro j m hj
  obtain ⟨md, hmd, hdate, hroles, hunp, _⟩ := hmain j m hj
  refine ⟨md, hmd, hunp, ?_⟩
  intro role hrole
  obtain ⟨d, hd, hok⟩ := hroles role hrole
  cases hdp : d.personId with
  | none =>
      obtain ⟨hma, hc, _⟩ := hok.1 hdp
      exact ⟨d, hd, hma, Or.inl ⟨hdp, hc⟩⟩
  | some pid =>
      obtain ⟨hma, hc, hqual, pr, hprmem, hpr1, hpravail⟩ := hok.2 pid hdp
      obtain ⟨q, hq, hqe⟩ := List.mem_map.mp hprmem
      have hqid : q.id = pid := by
        rw [← hqe] at hpr1
        exact hpr1
      have hqavail : isPersonAvailable q m.date = true := by
        rw [← isPersonAvailable_congr (availPerson pr) q
          (by rw [← hqe]; rfl) m.date]
        exact hpravail
      exact ⟨d, hd, hma, Or.inr ⟨pid, hdp, hc, hqual, q, hq, hqid, hqavail⟩⟩

theorem c2_duty_null_with_conflict_or_qualified_available_witness :
    ∃ d, getA zqMeeting.duties zqR1.id = some d ∧
      ((d.personId = none ∧ d.hasConflict = true ∧
        ∃ c ∈ zqSched.conflicts,
          c.type = "unfilled" ∧ c.meetingId = zqMeeting.id ∧
          c.roleId = zqR1.id) ∨
       (∃ pid, d.personId = some pid ∧ d.manuallyAssigned = false ∧
        d.hasConflict = false ∧ pid ∈ zqR1.peopleIds ∧
        ∃ q ∈ ([] : List Person), q.id = pid ∧
          isPersonAvailable q zqMeeting.date = true)) :=
  c2_duty_null_with_conflict_or_qualified_available zqRng 0 1 [] [zqR1, zqR2]
    [] none none [] [] zqSched (by decide) (by decide) zqMeeting (by decide)
    zqR1 (by decide)

theorem c1_no_duplicate_person_among_supplied_roles_witness :
    sharesPerson zqMeeting zqR1 zqR2 = false :=
  c1_no_duplicate_person_among_supplied_roles zqRng 0 1 [] [zqR1, zqR2]
    [] none none [] [] zqSched (by decide) (by decide) zqMeeting (by decide)
    zqR1 (by decide) zqR2 (by decide) (by decide)

theorem c7_zero_eligible_role_yields_per_meeting_conflicts_witness :
    ∃ d, getA zqMeeting.duties zqR1.id = some d ∧
      d.personId = none ∧ d.hasConflict = true ∧
      ∃ c ∈ zqSched.conflicts,
        c.type = "unfilled" ∧ c.meetingId = zqMeeting.id ∧
        c.roleId = zqR1.id :=
  c7_zero_eligible_role_yields_per_meeting_conflicts zqRng 0 1 [] [zqR1, zqR2]
    [] none none [] [] zqSched zqR1 (by decide) (by decide) (by decide)
    (by decide) zqMeeting (by decide)

/-- C7: counterexample to the claimed structural validation.  A
configuration with two roles that have zero eligible people (no people
supplied at all) is not rejected: the call completes, returns a
two-meeting schedule, and surfaces the problem as four per-occurrence
`unfilled` conflict records instead. -/
theorem c7_counterexample_no_structural_validation :
    generateSchedule zqRng 0 1 [] [zqR1, zqR2] [] none none [] [] =
      some zqSched ∧
    zqSched.meetings.length = 2 ∧
    (zqSched.conflicts.filter (fun c => c.type == "unfilled")).length = 4 := by
  decide

theorem c10_engine_overwrites_supplied_roles_preserves_other_preseeds_witness :
    ∃ mds, generateMeetingDates 0 1 [] none [] [] = some mds ∧
      zqSched.meetings.length = mds.length ∧
      ∀ j m, zqSched.meetings.get? j = some m → ∃ md, mds.get? j = some md ∧
        (∀ rid, rid ∉ [zqR1, zqR2].map (·.id) →
          getA m.duties rid = getA md.duties rid) ∧
        (∀ role ∈ [zqR1, zqR2], ∃ d, getA m.duties role.id = some d ∧
          d.manuallyAssigned = false ∧
          ((d.personId = none ∧ d.hasConflict = true) ∨
           (∃ pid, d.personId = some pid ∧ d.hasConflict = false ∧
            pid ∈ role.peopleIds ∧
            ∃ q ∈ ([] : List Person), q.id = pid ∧
              isPersonAvailable q m.date = true))) :=
  c10_engine_overwrites_supplied_roles_preserves_other_preseeds zqRng 0 1 []
    [zqR1, zqR2] [] none none [] [] zqSched (by decide) (by decide)

/-- When exactly one person is eligible, is available on the date and is
not yet used in this meeting, `assignRoleToMeeting` assigns that person,
whatever their score and whatever the random draw. -/
theorem assignRole_singleton (rng : Nat → Nat) (rngIdx : Nat)
    (meeting : Meeting) (role : Role) (peopleState : List Person)
    (scheduleAssignments : SchedAssign) (meetings : List Meeting)
    (meetingIndex : Nat) (prefs : GroupPrefs) (p : Person)
    (helig : eligibleFor role peopleState = [p])
    (havail : isPersonAvailable p meeting.date = true)
    (hnotused : some p.id ∉
      valuesA ((getA scheduleAssignments meeting.id).getD [])) :
    assignRoleToMeeting rng rngIdx meeting role peopleState
      scheduleAssignments meetings meetingIndex prefs =
      { duty := createDuty (some p.id) false false false,
        newConflicts := [], usedRng := true } := by
  have hval : validCandidates role meeting meetingIndex meetings
      scheduleAssignments prefs peopleState =
      [{ person := p,
         score := scorePerson p role meeting meetingIndex meetings
           scheduleAssignments prefs peopleState }] := by
    unfold validCandidates scoredFor
    rw [helig]
    simp [List.filter, havail, hnotused]
  have hne : validCandidates role meeting meetingIndex meetings
      scheduleAssignments prefs peopleState ≠ [] := by
    rw [hval]
    simp
  obtain ⟨sp', hmem, hout, _⟩ := assignRole_picks_valid rng rngIdx meeting role
    peopleState scheduleAssignments meetings meetingIndex prefs hne
  rw [hval] at hmem
  rw [hout, List.mem_singleton.mp hmem]

/-- C1: counterexample to the pre-seeded part of the claim.  The engine's
double-booking check consults only `scheduleAssignments`, which records
the duties the engine itself writes; a duty pre-seeded by a special
occurrence for a role id outside the supplied list is never entered
there, so the engine re-assigns the same person: the returned meeting
carries two duties (`"r0"` pre-seeded, `"r1"` engine-assigned) naming the
same non-null `"p1"`. -/
theorem c1_counterexample_preseeded_duty_collision :
    generateSchedule cxRng 0 1 [cxP1] [cxR1] [] none none cxOmits
      [cxSpecial] = some cxSched ∧
    ∃ m ∈ cxSched.meetings, ∃ d0 d1,
      getA m.duties "r0" = some d0 ∧ getA m.duties "r1" = some d1 ∧
      d0.personId = some "p1" ∧ d1.personId = some "p1" := by
  constructor
  · have hout : assignRoleToMeeting cxRng 0 cxM0 cxR1 [cxP1] [(0, [])]
        (buildMeetings [cxMd]) 0 [] =
        { duty := createDuty (some "p1") false false false,
          newConflicts := [], usedRng := true } := by
      have h := assignRole_singleton cxRng 0 cxM0 cxR1 [cxP1] [(0, [])]
        (buildMeetings [cxMd]) 0 [] cxP1 (by decide) (by decide) (by decide)
      simpa using h
    have hpr : processRole cxRng "Thursday" (buildMeetings [cxMd]) 0
        (cxM0, cxSt0) cxR1 = (cxMFin, cxStFin) := by
      unfold processRole
      dsimp only [cxSt0]
      rw [hout]
      rfl
    have hfold : List.foldl
        (processRole cxRng "Thursday" (buildMeetings [cxMd]) 0)
        (cxM0, cxSt0) [cxR1] = (cxMFin, cxStFin) := by
      rw [List.foldl_cons, hpr, List.foldl_nil]
    have hpm : processMeeting cxRng [cxR1] "Thursday" (buildMeetings [cxMd])
        0 cxM0 { peopleState := [cxP1], schedAssign := [], groupPrefs := [],
                 conflicts := [], rngIdx := 0 } = (cxMFin, cxStFin) := by
      unfold processMeeting
      exact hfold
    have hres : processMeetings cxRng [cxR1] "Thursday"
        (buildMeetings [cxMd]) 0 [cxM0]
        { peopleState := [cxP1], schedAssign := [], groupPrefs := [],
          conflicts := [], rngIdx := 0 } = ([cxMFin], cxStFin) := by
      unfold processMeetings
      simp only [hpm]
      rfl
    have hmds : generateMeetingDates 0 1 [] none cxOmits [cxSpecial] =
        some [cxMd] := by decide
    have hb : buildMeetings [cxMd] = [cxM0] := by decide
    unfold generateSchedule
    rw [hmds]
    simp only []
    rw [show midweekNameOf none = "Thursday" from rfl,
      show initialPeopleState [cxP1] none = [cxP1] from rfl]
    rw [show (buildMeetings [cxMd] : List Meeting) = [cxM0] from hb] at hres ⊢
    rw [hres]
    rfl
  · exact ⟨cxMFin, by decide, cxPre, cxEngineDuty, by decide, by decide,
      by decide, by decide⟩

theorem presFrom_refl (n : Nat) (st : MStore) (h : n ≤ st.length) :
    PresFrom n st st :=
  ⟨h, fun _ _ => rfl⟩

theorem presFrom_trans {n : Nat} {st0 st1 st2 : MStore}
    (h1 : PresFrom n st0 st1) (h2 : PresFrom n st1 st2) :
    PresFrom n st0 st2 :=
  ⟨h2.1, fun r hr => (h2.2 r hr).trans (h1.2 r hr)⟩

theorem presFrom_alloc {n : Nat} {st : MStore} (v : HMap)
    (h : n ≤ st.length) : PresFrom n st (st ++ [v]) := by
  refine ⟨by simp; omega, fun r hr => ?_⟩
  rw [List.get?_append (lt_of_lt_of_le hr h)]

theorem presFrom_write {n : Nat} {st : MStore} (r : Nat) (v : HMap)
    (h : n ≤ st.length) (hr : n ≤ r) : PresFrom n st (writeM st r v) := by
  refine ⟨by simpa [writeM] using h, fun r' hr' => ?_⟩
  rw [writeM, List.get?_set_ne _ _ (by omega)]

theorem findH_mem (pid : PersonId) :
    ∀ (ps : List PersonH) (p : PersonH), findH pid ps = some p → p ∈ ps := by
  intro ps
  induction ps with
  | nil => intro p h; simp [findH] at h
  | cons q qs ih =>
      intro p h
      unfold findH at h
      by_cases hq : q.id = pid
      · rw [if_pos hq] at h
        injection h with h
        rw [← h]
        exact List.mem_cons_self _ _
      · rw [if_neg hq] at h
        exact List.mem_cons_of_mem _ (ih p h)

/-- Generic fold: a store-valued fold of steps that each preserve the
low region preserves the low region. -/
theorem foldl_presFrom {β : Type} (f : MStore → β → MStore) (n : Nat)
    (hf : ∀ st b, n ≤ st.length → PresFrom n st (f st b)) :
    ∀ (l : List β) (st : MStore), n ≤ st.length →
      PresFrom n st (l.foldl f st)
  | [], st, h => presFrom_refl n st h
  | b :: l, st, h => by
      rw [List.foldl_cons]
      exact presFrom_trans (hf st b h)
        (foldl_presFrom f n hf l (f st b) (hf st b h).1)

theorem copyPeopleH_pres (n : Nat) :
    ∀ (ps : List PersonH) (st : MStore), n ≤ st.length →
      PresFrom n st (copyPeopleH ps st).1 ∧
      HighRefs n (copyPeopleH ps st).2 := by
  intro ps
  induction ps with
  | nil =>
      intro st h
      exact ⟨presFrom_refl n st h, fun p hp => by simp [copyPeopleH] at hp⟩
  | cons p ps ih =>
      intro st h
      have h1 : PresFrom n st (st ++ [readM st p.la]) := presFrom_alloc _ h
      have h2 : PresFrom n (st ++ [readM st p.la])
          ((st ++ [readM st p.la]) ++ [readM st p.ac]) :=
        presFrom_alloc _ h1.1
      have h12 := presFrom_trans h1 h2
      obtain ⟨hrec1, hrec2⟩ := ih ((st ++ [readM st p.la]) ++ [readM st p.ac])
        h12.1
      constructor
      · show PresFrom n st (copyPeopleH (p :: ps) st).1
        unfold copyPeopleH
        exact presFrom_trans h12 hrec1
      · show HighRefs n (copyPeopleH (p :: ps) st).2
        unfold copyPeopleH
        intro q hq
        rcases List.mem_cons.mp hq with hq1 | hq1
        · rw [hq1]
          refine ⟨?_, ?_⟩
          · show n ≤ (allocM st (readM st p.la)).2
            simpa [allocM] using h
          · show n ≤ (allocM (allocM st (readM st p.la)).1 (readM st p.ac)).2
            simp [allocM]
            omega
        · exact hrec2 q hq1

theorem resetCountsH_pres (n : Nat) :
    ∀ (ps : List PersonH) (st : MStore), n ≤ st.length → HighRefs n ps →
      PresFrom n st (resetCountsH ps st).1 ∧
      HighRefs n (resetCountsH ps st).2 := by
  intro ps
  induction ps with
  | nil =>
      intro st h _
      exact ⟨presFrom_refl n st h, fun p hp => by simp [resetCountsH] at hp⟩
  | cons p ps ih =>
      intro st h hps
      have h1 : PresFrom n st (st ++ [[]]) := presFrom_alloc _ h
      obtain ⟨hrec1, hrec2⟩ := ih (st ++ [[]]) h1.1
        (fun q hq => hps q (List.mem_cons_of_mem _ hq))
      constructor
      · show PresFrom n st (resetCountsH (p :: ps) st).1
        unfold resetCountsH
        exact presFrom_trans h1 hrec1
      · show HighRefs n (resetCountsH (p :: ps) st).2
        unfold resetCountsH
        intro q hq
        rcases List.mem_cons.mp hq with hq1 | hq1
        · rw [hq1]
          refine ⟨(hps p (List.mem_cons_self _ _)).1, ?_⟩
          show n ≤ (allocM st []).2
          simpa [allocM] using h
        · exact hrec2 q hq1

theorem lookbackPersonUpdH_pres {n : Nat} (meetingDate : Nat) (rid : RoleId)
    (p : PersonH) (st : MStore) (h : n ≤ st.length) (hla : n ≤ p.la)
    (hac : n ≤ p.ac) :
    PresFrom n st (lookbackPersonUpdH meetingDate rid p st) := by
  unfold lookbackPersonUpdH
  have h1 : PresFrom n st
      (match getA (readM st p.la) rid with
       | none => writeM st p.la (setA (readM st p.la) rid meetingDate)
       | some old =>
           if old < meetingDate then
             writeM st p.la (setA (readM st p.la) rid meetingDate)
           else st) := by
    cases getA (readM st p.la) rid with
    | none => exact presFrom_write _ _ h hla
    | some old =>
        dsimp only
        by_cases hlt : old < meetingDate
        · rw [if_pos hlt]
          exact presFrom_write _ _ h hla
        · rw [if_neg hlt]
          exact presFrom_refl n st h
  exact presFrom_trans h1 (presFrom_write _ _ h1.1 hac)

theorem lookbackApplyDutyH_pres {n : Nat} (meetingDate : Nat)
    (ps : List PersonH) (st : MStore) (rd : RoleId × Duty)
    (h : n ≤ st.length) (hps : HighRefs n ps) :
    PresFrom n st (lookbackApplyDutyH meetingDate ps st rd) := by
  unfold lookbackApplyDutyH
  cases rd.2.personId with
  | none => exact presFrom_refl n st h
  | some pid =>
      dsimp only
      cases hf : findH pid ps with
      | none => exact presFrom_refl n st h
      | some p =>
          have hp := hps p (findH_mem pid ps p hf)
          exact lookbackPersonUpdH_pres meetingDate rd.1 p st h hp.1 hp.2

theorem lookbackApplyMeetingH_pres {n : Nat} (ps : List PersonH)
    (st : MStore) (meeting : Meeting) (h : n ≤ st.length)
    (hps : HighRefs n ps) :
    PresFrom n st (lookbackApplyMeetingH ps st meeting) := by
  unfold lookbackApplyMeetingH
  exact foldl_presFrom _ n
    (fun st' rd h' => lookbackApplyDutyH_pres meeting.date ps st' rd h' hps)
    meeting.duties st h

theorem lookbackPhaseH_pres {n : Nat} (ps : List PersonH)
    (existingMeetings : List Meeting) (st : MStore) (h : n ≤ st.length)
    (hps : HighRefs n ps) :
    PresFrom n st (lookbackPhaseH ps existingMeetings st).1 ∧
    HighRefs n (lookbackPhaseH ps existingMeetings st).2 := by
  obtain ⟨h1, h2⟩ := resetCountsH_pres n ps st h hps
  constructor
  · show PresFrom n st (lookbackPhaseH ps existingMeetings st).1
    unfold lookbackPhaseH
    exact presFrom_trans h1
      (foldl_presFrom _ n
        (fun st' m h' =>
          lookbackApplyMeetingH_pres (resetCountsH ps st).2 st' m h' h2)
        (lookbackWindow existingMeetings) (resetCountsH ps st).1 h1.1)
  · exact h2

theorem assignUpdH_pres {n : Nat} (rid : RoleId) (meetingDate : Nat)
    (p : PersonH) (st : MStore) (h : n ≤ st.length) (hla : n ≤ p.la)
    (hac : n ≤ p.ac) :
    PresFrom n st (assignUpdH rid meetingDate p st) := by
  unfold assignUpdH
  have h1 : PresFrom n st (writeM st p.la (setA (readM st p.la) rid
      meetingDate)) := presFrom_write _ _ h hla
  exact presFrom_trans h1 (presFrom_write _ _ h1.1 hac)

theorem processRoleH_pres {n : Nat} (rng : Nat → Nat) (midweekDay : String)
    (meetings0 : List Meeting) (meetingIndex : Nat)
    (acc : Meeting × GenStateH) (role : Role)
    (h : n ≤ acc.2.store.length) (hps : HighRefs n acc.2.peopleState) :
    PresFrom n acc.2.store
      (processRoleH rng midweekDay meetings0 meetingIndex acc role).2.store ∧
    (processRoleH rng midweekDay meetings0 meetingIndex acc role).2.peopleState
      = acc.2.peopleState := by
  unfold processRoleH
  refine ⟨?_, rfl⟩
  dsimp only
  cases (assignRoleToMeeting rng acc.2.rngIdx acc.1 role
      (materialize acc.2.store acc.2.peopleState) acc.2.schedAssign meetings0
      meetingIndex acc.2.groupPrefs).duty.personId with
  | none => exact presFrom_refl n _ h
  | some pid =>
      dsimp only
      cases hf : findH pid acc.2.peopleState with
      | none => exact presFrom_refl n _ h
      | some p =>
          have hp := hps p (findH_mem pid acc.2.peopleState p hf)
          exact assignUpdH_pres role.id acc.1.date p acc.2.store h hp.1 hp.2

theorem foldl_processRoleH_pres {n : Nat} (rng : Nat → Nat)
    (midweekDay : String) (meetings0 : List Meeting) (meetingIndex : Nat) :
    ∀ (rs : List Role) (acc : Meeting × GenStateH),
      n ≤ acc.2.store.length → HighRefs n acc.2.peopleState →
      PresFrom n acc.2.store
        (rs.foldl (processRoleH rng midweekDay meetings0 meetingIndex)
          acc).2.store ∧
      (rs.foldl (processRoleH rng midweekDay meetings0 meetingIndex)
        acc).2.peopleState = acc.2.peopleState := by
  intro rs
  induction rs with
  | nil =>
      intro acc h hps
      exact ⟨presFrom_refl n _ h, rfl⟩
  | cons r rs ih =>
      intro acc h hps
      obtain ⟨h1, h2⟩ := processRoleH_pres rng midweekDay meetings0
        meetingIndex acc r h hps
      obtain ⟨h3, h4⟩ := ih
        (processRoleH rng midweekDay meetings0 meetingIndex acc r) h1.1
        (h2 ▸ hps)
      rw [List.foldl_cons]
      exact ⟨presFrom_trans h1 h3, h4.trans h2⟩

theorem processMeetingH_pres {n : Nat} (rng : Nat → Nat) (roles : List Role)
    (midweekDay : String) (meetings0 : List Meeting) (meetingIndex : Nat)
    (meeting : Meeting) (st : GenStateH) (h : n ≤ st.store.length)
    (hps : HighRefs n st.peopleState) :
    PresFrom n st.store
      (processMeetingH rng roles midweekDay meetings0 meetingIndex meeting
        st).2.store ∧
    (processMeetingH rng roles midweekDay meetings0 meetingIndex meeting
      st).2.peopleState = st.peopleState := by
  unfold processMeetingH
  exact foldl_processRoleH_pres rng midweekDay meetings0 meetingIndex
    (sortBy roleLenLe roles)
    (meeting, { st with schedAssign := setA st.schedAssign meeting.id [] })
    h hps

theorem processMeetingsH_pres {n : Nat} (rng : Nat → Nat) (roles : List Role)
    (midweekDay : String) (meetings0 : List Meeting) :
    ∀ (ms : List Meeting) (i : Nat) (st : GenStateH),
      n ≤ st.store.length → HighRefs n st.peopleState →
      PresFrom n st.store
        (processMeetingsH rng roles midweekDay meetings0 i ms st).2.store := by
  intro ms
  induction ms with
  | nil =>
      intro i st h hps
      exact presFrom_refl n _ h
  | cons m ms ih =>
      intro i st h hps
      obtain ⟨h1, h2⟩ := processMeetingH_pres rng roles midweekDay meetings0
        i m st h hps
      have h3 := ih (i + 1)
        (processMeetingH rng roles midweekDay meetings0 i m st).2 h1.1
        (h2 ▸ hps)
      show PresFrom n st.store
        (processMeetingsH rng roles midweekDay meetings0 i (m :: ms) st).2.store
      unfold processMeetingsH
      exact presFrom_trans h1 h3

theorem gshInit_pres (people : List PersonH)
    (existingSchedule : Option Schedule) (st0 : MStore) :
    PresFrom st0.length st0 (gshInit people existingSchedule st0).1 ∧
    HighRefs st0.length (gshInit people existingSchedule st0).2 := by
  obtain ⟨hcp1, hcp2⟩ := copyPeopleH_pres st0.length people st0 (le_refl _)
  unfold gshInit
  cases existingSchedule with
  | none => exact ⟨hcp1, hcp2⟩
  | some ex =>
      dsimp only
      by_cases hlen : ex.meetings.length > 0
      · rw [if_pos hlen]
        obtain ⟨hl1, hl2⟩ := lookbackPhaseH_pres (copyPeopleH people st0).2
          ex.meetings (copyPeopleH people st0).1 hcp1.1 hcp2
        exact ⟨presFrom_trans hcp1 hl1, hl2⟩
      · rw [if_neg hlen]
        exact ⟨hcp1, hcp2⟩

theorem generateScheduleH_eq (rng : Nat → Nat) (startDate : Nat) (weeks : Nat)
    (people : List PersonH) (roles : List Role) (cancelledDates : List Nat)
    (existingSchedule : Option Schedule) (settings : Option Settings)
    (omittedDates : List OmittedDate) (specialMeetings : List SpecialMeeting)
    (st0 : MStore) (sched : Schedule) (stF : MStore)
    (hrun : generateScheduleH rng startDate weeks people roles cancelledDates
      existingSchedule settings omittedDates specialMeetings st0 =
      some (sched, stF)) :
    ∃ mds, generateMeetingDates startDate weeks cancelledDates settings
        omittedDates specialMeetings = some mds ∧
      stF = (processMeetingsH rng roles (midweekNameOf settings)
        (buildMeetings mds) 0 (buildMeetings mds)
        { peopleState := (gshInit people existingSchedule st0).2,
          store := (gshInit people existingSchedule st0).1,
          schedAssign := [], groupPrefs := [], conflicts := [],
          rngIdx := 0 }).2.store := by
  unfold generateScheduleH at hrun
  cases hmds : generateMeetingDates startDate weeks cancelledDates settings
    omittedDates specialMeetings with
  | none =>
      rw [hmds] at hrun
      simp at hrun
  | some mds =>
      rw [hmds] at hrun
      simp only [Option.some.injEq, Prod.mk.injEq] at hrun
      exact ⟨mds, rfl, hrun.2.symm⟩

/-- C9: `generateSchedule` operates on working copies of the caller's
person records — the maps it mutates live in cells it freshly allocates
for the copies — so after any call (conflict-recording runs included)
every input person's `lastAssigned` map and `assignmentCount` map read
back unchanged from the caller's store. -/
theorem c9_caller_person_maps_unmutated (rng : Nat → Nat) (startDate : Nat)
    (weeks : Nat) (people : List PersonH) (roles : List Role)
    (cancelledDates : List Nat) (existingSchedule : Option Schedule)
    (settings : Option Settings) (omittedDates : List OmittedDate)
    (specialMeetings : List SpecialMeeting) (st0 : MStore) (sched : Schedule)
    (stF : MStore)
    (hrun : generateScheduleH rng startDate weeks people roles cancelledDates
      existingSchedule settings omittedDates specialMeetings st0 =
      some (sched, stF))
    (hrefs : ∀ p ∈ people, p.la < st0.length ∧ p.ac < st0.length) :
    ∀ p ∈ people, readM stF p.la = readM st0 p.la ∧
      readM stF p.ac = readM st0 p.ac := by
  obtain ⟨mds, hmds, hstF⟩ := generateScheduleH_eq rng startDate weeks people
    roles cancelledDates existingSchedule settings omittedDates
    specialMeetings st0 sched stF hrun
  obtain ⟨hi1, hi2⟩ := gshInit_pres people existingSchedule st0
  have hrun2 := processMeetingsH_pres rng roles (midweekNameOf settings)
    (buildMeetings mds) (buildMeetings mds) 0
    { peopleState := (gshInit people existingSchedule st0).2,
      store := (gshInit people existingSchedule st0).1,
      schedAssign := [], groupPrefs := [], conflicts := [], rngIdx := 0 }
    hi1.1 hi2
  have hfinal : PresFrom st0.length st0 stF := by
    rw [hstF]
    exact presFrom_trans hi1 hrun2
  intro p hp
  obtain ⟨h1, h2⟩ := hrefs p hp
  constructor
  · unfold readM
    rw [hfinal.2 p.la h1]
  · unfold readM
    rw [hfinal.2 p.ac h2]

theorem c9_caller_person_maps_unmutated_witness :
    readM c9Out.2 c9P.la = readM c9St0 c9P.la ∧
    readM c9Out.2 c9P.ac = readM c9St0 c9P.ac :=
  c9_caller_person_maps_unmutated c9Rng 0 1 [c9P] [c9Role] []
    (some c9Existing) none [] [] c9St0 c9Out.1 c9Out.2 (by decide)
    (by decide) c9P (by decide)

end DutyManager

